import Mathlib

/-! # rados-bench-plot: aggregation and ordering engine

A shallow embedding of `src/main.go`: the size parser (`parseSize`), the name
decomposer (`splitString`), the aggregator (`parserJsonContent`), the axis sorter
(`RADOSBenchData.sort`) and the series flattener (`RADOSBenchData.prepareData`).

Conventions of the embedding.

* A Go `string` is a sequence of bytes: `GoString = List (Fin 256)`.
* Go's `int` is taken to be 64 bits wide (as on amd64 and arm64); products wrap
  around (`wrapInt`). `uint64` values are natural numbers.
* A run-time panic is the result `none` of an `Option`-valued function.
* A Go `map` is a finite map (`Finmap`); the order in which `range` walks a map is
  not specified by Go, so it is an explicit argument of the embedding.
* `float64` is an abstract carrier (`Float64`): IEEE arithmetic is not evaluated.
-/

namespace RadosBenchPlot

/-! ## Strings -/

/-- One byte of a Go string. -/
abbrev Byte := Fin 256

/-- A Go string: its bytes, in order. -/
abbrev GoString := List Byte

/-- The Go string written as a literal: the UTF-8 encoding of its characters. -/
def str (s : String) : GoString :=
  s.toList.flatMap (fun c => (String.utf8EncodeChar c).map (fun b => Fin.ofNat b.toNat))

/-- The byte is one of `'0'..'9'`. -/
def isDigit (c : Byte) : Bool := decide (48 ≤ c.val ∧ c.val ≤ 57)

/-- The decimal value of a run of digits, most significant first. -/
def decVal (ds : GoString) : Nat := ds.foldl (fun n c => n * 10 + (c.val - 48)) 0

/-- Go's `strings.Split(s, sep)` for a one-byte separator: the segments between the
separators; a string without separator (the empty string too) gives one segment. -/
def stringsSplit (s : GoString) (sep : Byte) : List GoString := s.splitOn sep

/-- Go's `strings.Join(parts, sep)` for a one-byte separator. -/
def stringsJoin (parts : List GoString) (sep : Byte) : GoString := [sep].intercalate parts

/-- The byte `'_'`. -/
def underscore : Byte := 95

/-! ## The parts of `strconv` and `unicode` the program calls -/

/-- The two errors of Go's `strconv` number parsers. -/
inductive NumError where
  | ErrSyntax
  | ErrRange
  deriving DecidableEq, Repr

/-- The largest `uint64`. -/
def maxUint64 : Nat := 2 ^ 64 - 1

/-- The digit loop of `strconv.ParseUint(s, 10, 64)`, `n` being the value read so far.
A byte that is not a decimal digit ends it with `(0, ErrSyntax)`; a value that leaves
`uint64` ends it at once with `(maxUint64, ErrRange)`, before later bytes are looked at. -/
def parseUintLoop : GoString → Nat → Nat × Option NumError
  | [], n => (n, none)
  | c :: cs, n =>
    if isDigit c then
      if n ≥ maxUint64 / 10 + 1 then (maxUint64, some NumError.ErrRange)
      else
        let n10 := n * 10
        let n1 := (n10 + (c.val - 48)) % 2 ^ 64
        if n1 < n10 ∨ n1 > maxUint64 then (maxUint64, some NumError.ErrRange)
        else parseUintLoop cs n1
    else (0, some NumError.ErrSyntax)

/-- Go's `strconv.ParseUint(s, 10, 64)`: the value and the error, if any. -/
def ParseUint (s : GoString) : Nat × Option NumError :=
  if s = [] then (0, some NumError.ErrSyntax) else parseUintLoop s 0

/-- The string without its leading `'+'` or `'-'`, if it has one. -/
def stripSign (s : GoString) : GoString :=
  if s.head? = some 43 ∨ s.head? = some 45 then s.tail else s

/-- Go's `strconv.ParseInt(s, 10, 0)` with a 64-bit `int`: an optional sign, then
`ParseUint`; a value outside `int64` is replaced by the nearest bound. -/
def ParseInt (s : GoString) : Int × Option NumError :=
  if s = [] then (0, some NumError.ErrSyntax)
  else
    let neg : Bool := s.head? = some 45
    match ParseUint (stripSign s) with
    | (_, some NumError.ErrSyntax) => (0, some NumError.ErrSyntax)
    | (un, _) =>
      let cutoff : Nat := 2 ^ 63
      if !neg ∧ un ≥ cutoff then ((cutoff : Int) - 1, some NumError.ErrRange)
      else if neg ∧ un > cutoff then (-(cutoff : Int), some NumError.ErrRange)
      else if neg then (-(un : Int), none) else ((un : Int), none)

/-- Go's `strconv.Atoi(s)`: `ParseInt(s, 10, 0)`; the library's shortcut for short
strings returns the same value and error. -/
def Atoi (s : GoString) : Int × Option NumError := ParseInt s

/-- Go's `unicode.ToLower` on a rune below 256: `A..Z` and the upper-case letters of
Latin-1 (`U+00C0..U+00DE` without `U+00D7`) move up by 32, every other rune stays. -/
def unicodeToLower (r : Nat) : Nat :=
  if (65 ≤ r ∧ r ≤ 90) ∨ (192 ≤ r ∧ r ≤ 222 ∧ r ≠ 215) then r + 32 else r

/-- The value of an `int` expression after 64-bit two's-complement wrap-around. -/
def wrapInt (x : Int) : Int := (x + 2 ^ 63) % 2 ^ 64 - 2 ^ 63

/-! ## Size parser and name decomposer (`main.go` lines 32-46 and 205-214) -/

/-- The function `parseSize` of `main.go`. `s[len(s)-1]` panics on the empty string
(`none`). Otherwise the last byte is the unit, the bytes before it go through `Atoi`
with the error dropped, and the unit picks the multiplier. -/
def parseSize (s : GoString) : Option Int :=
  match s.getLast? with
  | none => none
  | some unit =>
    let size := (Atoi s.dropLast).1
    let lower := unicodeToLower unit.val
    if lower = 107 then some (wrapInt (size * 1024))
    else if lower = 109 then some (wrapInt (wrapInt (size * 1024) * 1024))
    else if lower = 103 then some (wrapInt (wrapInt (wrapInt (size * 1024) * 1024) * 1024))
    else some size

/-- The function `splitString` of `main.go`. -/
def splitString (name : GoString) : GoString × GoString × GoString :=
  let parts := stringsSplit name underscore
  if parts.length < 3 then ([], [], [])
  else
    let firstPart := stringsJoin (parts.take (parts.length - 2)) underscore
    let secondPart := parts.getD (parts.length - 2) []
    let thirdPart := parts.getD (parts.length - 1) []
    (firstPart, secondPart, thirdPart)

/-! ## Data model (`main.go` lines 48-115) -/

/-- The operations on Go's `float64` that the program uses. The carrier is abstract, so
every theorem holds for whatever these operations are on real IEEE doubles. -/
class Float64 (F : Type) where
  /-- The zero value `0.0`. -/
  zero : F
  /-- Go's `strconv.ParseFloat(s, 64)` with the error dropped. -/
  parseFloat : GoString → F
  /-- The product `x * 1000.0`. -/
  mul1000 : F → F
  /-- The product `0.0 * 1000.0` is `0.0`. -/
  mul1000_zero : mul1000 zero = zero

/-- A `float64` kept as the expression that computes it. -/
inductive SymFloat where
  | zero
  | parsed (s : GoString)
  | scaled (x : SymFloat)
  deriving DecidableEq, Repr

instance : Float64 SymFloat where
  zero := SymFloat.zero
  parseFloat := SymFloat.parsed
  mul1000 := fun x => match x with
    | SymFloat.zero => SymFloat.zero
    | y => SymFloat.scaled y
  mul1000_zero := rfl

/-- The struct `Metrics`. -/
structure Metrics (F : Type) where
  IOPS : Nat
  Bw : F
  Latency : F
  deriving DecidableEq, Repr

/-- The zero value of `Metrics`, which Go returns for a key that a map does not hold. -/
def Metrics.zero {F : Type} [Float64 F] : Metrics F :=
  { IOPS := 0, Bw := Float64.zero, Latency := Float64.zero }

/-- A Go `map[string]V`. -/
abbrev GoMap (V : Type) := Finmap (fun _ : GoString => V)

/-- A Go `map[uint64]V`. -/
abbrev UintMap (V : Type) := Finmap (fun _ : Nat => V)

/-- The fields of the struct `RADOSBenchOutput` that the aggregation reads. -/
structure RADOSBenchOutput where
  Bandwidth : GoString
  AverageIOPS : GoString
  AverageLatency : GoString
  deriving DecidableEq, Repr

/-- The method `averageIOPS`: `strconv.ParseUint(r.AverageIOPS, 10, 64)`, error dropped. -/
def RADOSBenchOutput.averageIOPS (r : RADOSBenchOutput) : Nat := (ParseUint r.AverageIOPS).1

/-- The method `bandwidth`: `strconv.ParseFloat(r.Bandwidth, 64)`, error dropped. -/
def RADOSBenchOutput.bandwidth {F : Type} [Float64 F] (r : RADOSBenchOutput) : F :=
  Float64.parseFloat r.Bandwidth

/-- The method `averageLatency`: `strconv.ParseFloat(r.AverageLatency, 64)`, error dropped. -/
def RADOSBenchOutput.averageLatency {F : Type} [Float64 F] (r : RADOSBenchOutput) : F :=
  Float64.parseFloat r.AverageLatency

/-- The struct `RADOSBenchData`. A `nil` map field is `none`; `data`, `bss` and `items`
are never `nil` in a value built by `parserJsonContent`. -/
structure RADOSBenchData (F : Type) where
  data : GoMap (GoMap (GoMap (Metrics F)))
  bss : UintMap (List GoString)
  items : UintMap (List GoString)
  IOPSData : Option (GoMap (List Nat))
  BWData : Option (GoMap (List F))
  LatencyData : Option (GoMap (List F))

instance {F : Type} [DecidableEq F] : DecidableEq (RADOSBenchData F) := fun a b =>
  decidable_of_iff (a.data = b.data ∧ a.bss = b.bss ∧ a.items = b.items ∧
    a.IOPSData = b.IOPSData ∧ a.BWData = b.BWData ∧ a.LatencyData = b.LatencyData)
    (by cases a; cases b; simp)

/-- The type `RADOSBenchOutputs`, a Go map, as the list of its entries in the order in
which `range` yields them. Its keys are pairwise distinct. -/
abbrev RADOSBenchOutputs := List (GoString × RADOSBenchOutput)

/-- Go's `strconv.FormatUint(n, 10)`: digits are produced from the least significant
one; `fuel` bounds the number of digits. -/
def formatBits : Nat → Nat → GoString → GoString
  | 0, _, acc => acc
  | fuel + 1, n, acc =>
    if n < 10 then (Fin.ofNat (48 + n)) :: acc
    else formatBits fuel (n / 10) ((Fin.ofNat (48 + n % 10)) :: acc)

/-- Go's `strconv.FormatUint(n, 10)`. -/
def formatUint (n : Nat) : GoString := formatBits (n + 1) n []

/-- The slice a `map[uint64][]string` gives for a key: `nil` (the empty slice) when the
key is not there. -/
def sliceAt (m : UintMap (List GoString)) (k : Nat) : List GoString := (m.lookup k).getD []

/-- The value a `map[string][]T` gives for a key: `nil` when the key is not there. -/
def seriesAt {T : Type} (m : GoMap (List T)) (k : GoString) : List T := (m.lookup k).getD []

/-! ## Sorting (`main.go` lines 26-30, Go's `sort` package) -/

/-- The method `BySize.Less` on the two elements it compares; it panics when
`parseSize` does. -/
def BySize.Less (x y : GoString) : Option Bool :=
  match parseSize x, parseSize y with
  | some a, some b => some (decide (a < b))
  | _, _ => none

/-- The inner loop of Go's `insertionSort`: the element `x` moves left past every element
it is `Less` than. `rev` is the part already sorted, its last element first. -/
def insertLeft {α : Type} (less : α → α → Option Bool) (x : α) : List α → Option (List α)
  | [] => some [x]
  | y :: ys =>
    match less x y with
    | none => none
    | some true => (insertLeft less x ys).map (fun r => y :: r)
    | some false => some (x :: y :: ys)

/-- The part already sorted (last element first) after the outer loop of Go's
`insertionSort` has taken the elements of `l` in turn. -/
def insertAll {α : Type} (less : α → α → Option Bool) : List α → List α → Option (List α)
  | [], rev => some rev
  | x :: xs, rev =>
    match insertLeft less x rev with
    | none => none
    | some rev1 => insertAll less xs rev1

/-- Go's `sort.Sort` with the comparison `less`, which may panic. The library sorts
slices of up to 12 elements by this insertion sort, which is stable. For longer slices its
`pdqsort` also returns an ascending permutation and also compares every element, but it is
not stable: elements that `less` does not tell apart may come out in another order than
here. No theorem below depends on the order among such elements. -/
def sortSort {α : Type} (less : α → α → Option Bool) (l : List α) : Option (List α) :=
  (insertAll less l []).map List.reverse

/-- Go's `sort.Strings`: ascending in the byte-wise order of strings. Its comparison
never panics, so the sort always returns. -/
def sortStrings (l : List GoString) : List GoString :=
  (sortSort (fun x y => some (decide (x < y))) l).getD l

/-! ## Axis sorter and series flattener (`main.go` lines 117-179) -/

/-- The order in which `range` walks the maps that `sort` ranges over: `outer` lists the
keys (block sizes) of `jobData` as the outer loop meets them, `inner bs` the keys (names)
of `jobData[bs]` as the inner loop meets them. Go leaves both orders unspecified; that the
lists are the keys of the maps is `RangeOrder.Valid`. -/
structure RangeOrder where
  outer : List GoString
  inner : GoString → List GoString

/-- The lists are an order in which `range` can walk `jobData` and its inner maps: each
key once, and nothing else. -/
def RangeOrder.Valid {F : Type} (o : RangeOrder) (jobData : GoMap (GoMap (Metrics F))) : Prop :=
  (o.outer.Nodup ∧ o.outer.toFinset = jobData.keys) ∧
  ∀ bs ∈ jobData.keys,
    (o.inner bs).Nodup ∧ (o.inner bs).toFinset = ((jobData.lookup bs).getD ∅).keys

instance {F : Type} [DecidableEq F] (o : RangeOrder) (jobData : GoMap (GoMap (Metrics F))) :
    Decidable (o.Valid jobData) := by
  unfold RangeOrder.Valid
  infer_instance

/-- The method `isSorted`. -/
def RADOSBenchData.isSorted {F : Type} (p : RADOSBenchData F) (numjobs : Nat) : Bool :=
  decide (sliceAt p.bss numjobs ≠ [])

/-- The body of the inner loop of `sort` (lines 140-143): a name not yet in `itemSet`
is appended to `items[numjobs]` and put into the set. -/
def sortItemStep {F : Type} (numjobs : Nat) (acc : RADOSBenchData F × Finset GoString)
    (item : GoString) : RADOSBenchData F × Finset GoString :=
  if item ∈ acc.2 then acc
  else
    ({ acc.1 with items := acc.1.items.insert numjobs (sliceAt acc.1.items numjobs ++ [item]) },
      insert item acc.2)

/-- The body of the outer loop of `sort` (lines 138-144) for the block size `bs`. -/
def sortBsStep {F : Type} (o : RangeOrder) (numjobs : Nat)
    (acc : RADOSBenchData F × Finset GoString) (bs : GoString) :
    RADOSBenchData F × Finset GoString :=
  let p1 : RADOSBenchData F :=
    { acc.1 with bss := acc.1.bss.insert numjobs (sliceAt acc.1.bss numjobs ++ [bs]) }
  (o.inner bs).foldl (sortItemStep numjobs) (p1, acc.2)

/-- The method `sort`; `none` when it panics. The two library sorts work in place, so
they change nothing when the slice is `nil`. -/
def RADOSBenchData.sort {F : Type} (o : RangeOrder) (p : RADOSBenchData F) (numjobs : Nat) :
    Option (RADOSBenchData F) :=
  if p.isSorted numjobs then some p
  else
    match p.data.lookup (formatUint numjobs) with
    | none => some p
    | some _ =>
      let p1 := (o.outer.foldl (sortBsStep o numjobs) (p, ∅)).1
      match sortSort BySize.Less (sliceAt p1.bss numjobs) with
      | none => none
      | some sorted =>
        let p2 : RADOSBenchData F :=
          if numjobs ∈ p1.bss then { p1 with bss := p1.bss.insert numjobs sorted } else p1
        some (if numjobs ∈ p2.items then
          { p2 with items := p2.items.insert numjobs (sortStrings (sliceAt p2.items numjobs)) }
        else p2)

/-- The three series maps of the flattener while its loops run. -/
structure Series (F : Type) where
  iops : GoMap (List Nat)
  bw : GoMap (List F)
  latency : GoMap (List F)

/-- The body of the inner loop of `prepareData` (lines 173-176). -/
def prepareItemStep {F : Type} [Float64 F] (bsData : GoMap (Metrics F)) (acc : Series F)
    (item : GoString) : Series F :=
  let matrics := (bsData.lookup item).getD Metrics.zero
  { iops := acc.iops.insert item (seriesAt acc.iops item ++ [matrics.IOPS]),
    bw := acc.bw.insert item (seriesAt acc.bw item ++ [matrics.Bw]),
    latency := acc.latency.insert item
      (seriesAt acc.latency item ++ [Float64.mul1000 matrics.Latency]) }

/-- The body of the outer loop of `prepareData` (lines 171-177); a block size that
`jobData` does not hold gives the `nil` map, which reads as empty. -/
def prepareBsStep {F : Type} [Float64 F] (jobData : GoMap (GoMap (Metrics F)))
    (items : List GoString) (acc : Series F) (bs : GoString) : Series F :=
  let bsData := (jobData.lookup bs).getD ∅
  items.foldl (prepareItemStep bsData) acc

/-- The method `prepareData`; `none` when it panics. -/
def RADOSBenchData.prepareData {F : Type} [Float64 F] (o : RangeOrder) (p : RADOSBenchData F)
    (numjobs : Nat) : Option (RADOSBenchData F) :=
  if p.IOPSData.isSome ∨ p.BWData.isSome ∨ p.LatencyData.isSome then some p
  else
    match p.data.lookup (formatUint numjobs) with
    | none => some p
    | some jobData =>
      match p.sort o numjobs with
      | none => none
      | some p1 =>
        let s := (sliceAt p1.bss numjobs).foldl
          (prepareBsStep jobData (sliceAt p1.items numjobs)) { iops := ∅, bw := ∅, latency := ∅ }
        some { p1 with IOPSData := some s.iops, BWData := some s.bw, LatencyData := some s.latency }

/-! ## Aggregator (`main.go` lines 239-261) -/

/-- The `Metrics` that `parserJsonContent` builds from a record (lines 247-251). -/
def RADOSBenchOutput.metrics {F : Type} [Float64 F] (content : RADOSBenchOutput) : Metrics F :=
  { IOPS := content.averageIOPS, Bw := content.bandwidth, Latency := content.averageLatency }

/-- The body of the loop of `parserJsonContent` (lines 246-258) for one entry: the two
inner maps are made when they are missing, then `data[jobs][bs][n] = m`. -/
def parserStep {F : Type} [Float64 F] (plotData : RADOSBenchData F)
    (entry : GoString × RADOSBenchOutput) : RADOSBenchData F :=
  let key := splitString entry.1
  let n := key.1
  let jobs := key.2.1
  let bs := key.2.2
  let m : Metrics F := entry.2.metrics
  let jobData := (plotData.data.lookup jobs).getD ∅
  let bsData := (jobData.lookup bs).getD ∅
  { plotData with data := plotData.data.insert jobs (jobData.insert bs (bsData.insert n m)) }

/-- The function `parserJsonContent`. -/
def parserJsonContent {F : Type} [Float64 F] (rbs : RADOSBenchOutputs) : RADOSBenchData F :=
  rbs.foldl parserStep
    { data := ∅, bss := ∅, items := ∅, IOPSData := none, BWData := none, LatencyData := none }

/-- The value of `data[jobs][bs][n]` with its presence, as `v, ok := ...` reads it. -/
def cell {F : Type} (d : GoMap (GoMap (GoMap (Metrics F)))) (jobs bs n : GoString) :
    Option (Metrics F) :=
  ((d.lookup jobs).bind (fun jobData => jobData.lookup bs)).bind (fun bsData => bsData.lookup n)

/-- The identifier splits on `'_'` into at least 3 segments. -/
def validId (name : GoString) : Bool := decide (3 ≤ (stringsSplit name underscore).length)

/-! ## Sample inputs -/

/-- A record with the given `average_iops`, `bandwidth` and `average_latency` texts. -/
def sampleRecord (iops bw lat : String) : RADOSBenchOutput :=
  { Bandwidth := str bw, AverageIOPS := str iops, AverageLatency := str lat }

/-- Two files, `__.json` and `x.json`, in the order in which `range` yields them. -/
def collidingInput : RADOSBenchOutputs :=
  [(str "__", sampleRecord "7" "1.0" "0.1"), (str "x", sampleRecord "9" "2.0" "0.2")]

/-- The files of the end-to-end scenario of the specification. -/
def scenarioInput : RADOSBenchOutputs :=
  [(str "write_1_4k", sampleRecord "100" "10.0" "0.005"),
   (str "write_1_64k", sampleRecord "50" "20.0" "0.010")]

/-- One file whose name has a single segment. -/
def invalidInput : RADOSBenchOutputs := [(str "notes", sampleRecord "3" "1.0" "0.1")]

/-- A valid file next to one whose name has two segments. -/
def mixedInput : RADOSBenchOutputs :=
  [(str "write_1_4k", sampleRecord "100" "10.0" "0.005"), (str "a_b", sampleRecord "3" "1.0" "0.1")]

/-- Two files of level 1, `a_1_.json` with an empty block-size label and `a_1_4k.json`. -/
def emptyLabelInput : RADOSBenchOutputs :=
  [(str "a_1_", sampleRecord "3" "1.0" "0.1"), (str "a_1_4k", sampleRecord "5" "2.0" "0.2")]

/-- The map `data["1"]` of the store built from `emptyLabelInput`. -/
def emptyLabelJobData : GoMap (GoMap (Metrics SymFloat)) :=
  ((parserJsonContent emptyLabelInput : RADOSBenchData SymFloat).data.lookup (str "1")).getD ∅

/-- The walk of `emptyLabelJobData` that meets the empty label first. -/
def emptyFirst : RangeOrder := { outer := [str "", str "4k"], inner := fun _ => [str "a"] }

/-- The walk of `emptyLabelJobData` that meets the empty label last. -/
def emptyLast : RangeOrder := { outer := [str "4k", str ""], inner := fun _ => [str "a"] }

/-- Two files of level 1 with different names, `a_1_.json` and `b_1_4k.json`. -/
def emptyLabelTwoNames : RADOSBenchOutputs :=
  [(str "a_1_", sampleRecord "3" "1.0" "0.1"), (str "b_1_4k", sampleRecord "5" "2.0" "0.2")]

/-- A walk of the level-1 maps of `emptyLabelTwoNames`. -/
def twoNamesOrder : RangeOrder :=
  { outer := [str "4k", str ""], inner := fun bs => if bs = str "" then [str "a"] else [str "b"] }

/-- Name `A` has data at `4k` only, name `B` at `4k` and `64k`. -/
def zeroFillInput : RADOSBenchOutputs :=
  [(str "A_1_4k", sampleRecord "7" "1.0" "0.1"), (str "B_1_4k", sampleRecord "8" "2.0" "0.2"),
   (str "B_1_64k", sampleRecord "9" "3.0" "0.3")]

/-- A walk of the level-1 maps of `zeroFillInput`. -/
def zeroFillOrder : RangeOrder :=
  { outer := [str "64k", str "4k"],
    inner := fun bs => if bs = str "4k" then [str "B", str "A"] else [str "B"] }

/-- A walk of the level-1 maps of `scenarioInput`. -/
def scenarioOrder : RangeOrder :=
  { outer := [str "64k", str "4k"], inner := fun _ => [str "write"] }

/-- Four files of level 1 with the block sizes `64k`, `4k`, `1m` and `512`. -/
def fourLabelsInput : RADOSBenchOutputs :=
  [(str "w_1_64k", sampleRecord "1" "1.0" "0.1"), (str "w_1_4k", sampleRecord "2" "1.0" "0.1"),
   (str "w_1_1m", sampleRecord "3" "1.0" "0.1"), (str "w_1_512", sampleRecord "4" "1.0" "0.1")]

/-- A walk of the level-1 maps of `fourLabelsInput`. -/
def fourLabelsOrder : RangeOrder :=
  { outer := [str "1m", str "512", str "64k", str "4k"], inner := fun _ => [str "w"] }

/-- The map `data[FormatUint(c)]` of a store, empty when the level is not there. -/
def levelOf {F : Type} (p : RADOSBenchData F) (c : Nat) : GoMap (GoMap (Metrics F)) :=
  (p.data.lookup (formatUint c)).getD ∅

/-! ## The end of `sort`, the cell update of the aggregator, the loop order of the
specification -/

/-- The state after the two library sorts at the end of `sort` (lines 147-148), `sorted`
being what `sort.Sort` made of `bss[numjobs]`: both sorts work in place, so a slice that
is `nil` stays `nil`. -/
def sortedAxes {F : Type} (p1 : RADOSBenchData F) (numjobs : Nat) (sorted : List GoString) :
    RADOSBenchData F :=
  let p2 : RADOSBenchData F :=
    if numjobs ∈ p1.bss then { p1 with bss := p1.bss.insert numjobs sorted } else p1
  if numjobs ∈ p2.items then
    { p2 with items := p2.items.insert numjobs (sortStrings (sliceAt p2.items numjobs)) }
  else p2

/-- The update `data[jobs][bs][n] = m` below the level: the `bs` map is made when it is
missing (lines 255-258). -/
def setBlock {M : Type} (jobData : GoMap (GoMap M)) (bs n : GoString) (m : M) :
    GoMap (GoMap M) :=
  jobData.insert bs (((jobData.lookup bs).getD ∅).insert n m)

/-- The update `data[jobs][bs][n] = m` with the two maps made when they are missing
(lines 252-258). -/
def setCell {M : Type} (d : GoMap (GoMap (GoMap M))) (jobs bs n : GoString) (m : M) :
    GoMap (GoMap (GoMap M)) :=
  d.insert jobs (setBlock ((d.lookup jobs).getD ∅) bs n m)

/-- The step of the flattener as the specification words it (section 4.5), for one name
and one block size: `GroupedStore[concurrency][blockSize][name]` is looked up; if it is
present, its rate, bandwidth and latency times 1000 are appended to the three sequences of
the name; if it is absent, the zero value of each metric is appended. -/
def specCellStep {F : Type} [Float64 F] (jobData : GoMap (GoMap (Metrics F)))
    (name : GoString) (acc : Series F) (bs : GoString) : Series F :=
  match (jobData.lookup bs).bind (fun bsData => bsData.lookup name) with
  | some m =>
    { iops := acc.iops.insert name (seriesAt acc.iops name ++ [m.IOPS]),
      bw := acc.bw.insert name (seriesAt acc.bw name ++ [m.Bw]),
      latency := acc.latency.insert name
        (seriesAt acc.latency name ++ [Float64.mul1000 m.Latency]) }
  | none =>
    { iops := acc.iops.insert name (seriesAt acc.iops name ++ [0]),
      bw := acc.bw.insert name (seriesAt acc.bw name ++ [Float64.zero]),
      latency := acc.latency.insert name (seriesAt acc.latency name ++ [Float64.zero]) }

/-- The series in the loop order of the specification (section 4.5): each name of
`distinctNames` in the outer loop, each block size of `sortedBlockSizes` in the inner
loop. -/
def specSeries {F : Type} [Float64 F] (jobData : GoMap (GoMap (Metrics F)))
    (distinctNames sortedBlockSizes : List GoString) : Series F :=
  distinctNames.foldl (fun acc name => sortedBlockSizes.foldl (specCellStep jobData name) acc)
    { iops := ∅, bw := ∅, latency := ∅ }

/-! ## More sample inputs -/

/-- Two files at two levels: `w_1_4k.json` and `w_2_64k.json`. -/
def twoLevelInput : RADOSBenchOutputs :=
  [(str "w_1_4k", sampleRecord "100" "10.0" "0.005"),
   (str "w_2_64k", sampleRecord "50" "20.0" "0.010")]

/-- The walk of level 1 of `twoLevelInput`. -/
def levelOneOrder : RangeOrder := { outer := [str "4k"], inner := fun _ => [str "w"] }

/-- The walk of level 2 of `twoLevelInput`. -/
def levelTwoOrder : RangeOrder := { outer := [str "64k"], inner := fun _ => [str "w"] }

/-- The state after `prepareData(1)` on the store of the scenario of the specification. -/
def scenarioFlattened : RADOSBenchData SymFloat :=
  ((parserJsonContent scenarioInput : RADOSBenchData SymFloat).prepareData scenarioOrder 1).getD
    (parserJsonContent scenarioInput)

/-- The state after `sort(1)` on the store of the scenario of the specification. -/
def scenarioSorted : RADOSBenchData SymFloat :=
  ((parserJsonContent scenarioInput : RADOSBenchData SymFloat).sort scenarioOrder 1).getD
    (parserJsonContent scenarioInput)

/-- The state after `prepareData(1)` on the store of `zeroFillInput`. -/
def zeroFillFlattened : RADOSBenchData SymFloat :=
  ((parserJsonContent zeroFillInput : RADOSBenchData SymFloat).prepareData zeroFillOrder 1).getD
    (parserJsonContent zeroFillInput)

/-- The state after `prepareData(1)` on the store of `twoLevelInput`. -/
def twoLevelFlattened : RADOSBenchData SymFloat :=
  ((parserJsonContent twoLevelInput : RADOSBenchData SymFloat).prepareData levelOneOrder 1).getD
    (parserJsonContent twoLevelInput)

/-- A state whose axis cache for level 1 holds `64k` only, while `data["1"]` holds `4k`
and `64k`. -/
def populatedState : RADOSBenchData SymFloat :=
  { (parserJsonContent scenarioInput : RADOSBenchData SymFloat) with
    bss := (∅ : UintMap (List GoString)).insert 1 [str "64k"]
    items := (∅ : UintMap (List GoString)).insert 1 [str "write"] }

/-- Another walk of the level-1 maps of `emptyLabelTwoNames`, the empty label first. -/
def twoNamesOrderRev : RangeOrder :=
  { outer := [str "", str "4k"], inner := fun bs => if bs = str "" then [str "a"] else [str "b"] }

/-- Two files with one-segment names, `a.json` and `b.json`. -/
def twoInvalidInput : RADOSBenchOutputs :=
  [(str "a", sampleRecord "7" "1.0" "0.1"), (str "b", sampleRecord "9" "2.0" "0.2")]

/-! # Theorems -/

set_option maxRecDepth 4000

/-! ### Size parser -/

theorem foldl_step_ge (ds : GoString) (n : Nat) :
    n ≤ ds.foldl (fun n c => n * 10 + (c.val - 48)) n := by
  induction ds generalizing n with
  | nil => simp
  | cons c cs ih =>
    simp only [List.foldl_cons]
    have := ih (n * 10 + (c.val - 48))
    omega

theorem parseUintLoop_digits (ds : GoString) (n : Nat)
    (hd : ∀ c ∈ ds, isDigit c = true)
    (hv : ds.foldl (fun n c => n * 10 + (c.val - 48)) n < 2 ^ 64) :
    parseUintLoop ds n = (ds.foldl (fun n c => n * 10 + (c.val - 48)) n, none) := by
  induction ds generalizing n with
  | nil => simp [parseUintLoop]
  | cons c cs ih =>
    simp only [List.foldl_cons] at hv ⊢
    have hc : isDigit c = true := hd c (List.mem_cons_self _ _)
    have hge := foldl_step_ge cs (n * 10 + (c.val - 48))
    have hlt : n * 10 + (c.val - 48) < 2 ^ 64 := lt_of_le_of_lt hge hv
    have hmod : (n * 10 + (c.val - 48)) % 2 ^ 64 = n * 10 + (c.val - 48) := Nat.mod_eq_of_lt hlt
    have h1 : ¬ (n ≥ maxUint64 / 10 + 1) := by
      simp only [maxUint64]; omega
    have h2 : ¬ ((n * 10 + (c.val - 48)) % 2 ^ 64 < n * 10 ∨
        (n * 10 + (c.val - 48)) % 2 ^ 64 > maxUint64) := by
      rw [hmod]; simp only [maxUint64]; omega
    rw [parseUintLoop]
    simp only [hc, if_true, h1, if_false, h2]
    rw [hmod]
    exact ih _ (fun d hdm => hd d (List.mem_cons_of_mem _ hdm)) hv

theorem decVal_eq (ds : GoString) : decVal ds = ds.foldl (fun n c => n * 10 + (c.val - 48)) 0 := rfl

theorem ParseUint_digits (ds : GoString) (hne : ds ≠ []) (hd : ∀ c ∈ ds, isDigit c = true)
    (hv : decVal ds < 2 ^ 64) : ParseUint ds = (decVal ds, none) := by
  unfold ParseUint
  rw [if_neg hne]
  exact parseUintLoop_digits ds 0 hd hv

theorem stripSign_digits (ds : GoString) (hne : ds ≠ []) (hd : ∀ c ∈ ds, isDigit c = true) :
    stripSign ds = ds ∧ ds.head? ≠ some 45 := by
  cases ds with
  | nil => exact absurd rfl hne
  | cons c cs =>
    have hc : isDigit c = true := hd c (List.mem_cons_self _ _)
    simp only [isDigit, decide_eq_true_eq] at hc
    have h43 : c ≠ 43 := by
      intro h; rw [h] at hc; revert hc; decide
    have h45 : c ≠ 45 := by
      intro h; rw [h] at hc; revert hc; decide
    simp [stripSign, h43, h45]

theorem Atoi_digits (ds : GoString) (hne : ds ≠ []) (hd : ∀ c ∈ ds, isDigit c = true)
    (hv : decVal ds < 2 ^ 63) : (Atoi ds).1 = (decVal ds : Int) := by
  obtain ⟨hs, hneg⟩ := stripSign_digits ds hne hd
  have hu := ParseUint_digits ds hne hd (by omega)
  unfold Atoi ParseInt
  rw [if_neg hne, hs, hu]
  have hnot : ¬ (9223372036854775808 ≤ decVal ds) := by omega
  simp [hneg, hnot]

theorem wrapInt_of_fits (x : Int) (h1 : -(2 ^ 63) ≤ x) (h2 : x < 2 ^ 63) : wrapInt x = x := by
  unfold wrapInt
  omega

theorem parseSize_append (p : GoString) (u : Byte) :
    parseSize (p ++ [u]) =
      if unicodeToLower u.val = 107 then some (wrapInt ((Atoi p).1 * 1024))
      else if unicodeToLower u.val = 109 then some (wrapInt (wrapInt ((Atoi p).1 * 1024) * 1024))
      else if unicodeToLower u.val = 103 then
        some (wrapInt (wrapInt (wrapInt ((Atoi p).1 * 1024) * 1024) * 1024))
      else some (Atoi p).1 := by
  unfold parseSize
  simp

/-- Claim C5. A non-empty run of decimal digits `ds` with value `decVal ds`, followed by
one unit byte `u`: `parseSize` returns the value times 1024 for `k`/`K`, times 1024^2 for
`m`/`M` and times 1024^3 for `g`/`G`, whenever that product fits Go's 64-bit `int`; so
`parseSize("4k") = 4096`, `parseSize("2M") = 2097152` and `parseSize("1g") = 1073741824`. -/
theorem parseSize_unit (ds : GoString) (u : Byte) (hne : ds ≠ [])
    (hd : ∀ c ∈ ds, isDigit c = true) :
    ((u = 107 ∨ u = 75) → decVal ds * 1024 < 2 ^ 63 →
        parseSize (ds ++ [u]) = some ((decVal ds : Int) * 1024)) ∧
    ((u = 109 ∨ u = 77) → decVal ds * 1024 ^ 2 < 2 ^ 63 →
        parseSize (ds ++ [u]) = some ((decVal ds : Int) * 1024 ^ 2)) ∧
    ((u = 103 ∨ u = 71) → decVal ds * 1024 ^ 3 < 2 ^ 63 →
        parseSize (ds ++ [u]) = some ((decVal ds : Int) * 1024 ^ 3)) ∧
    parseSize (str "4k") = some 4096 ∧ parseSize (str "2M") = some 2097152 ∧
    parseSize (str "1g") = some 1073741824 := by
  refine ⟨?_, ?_, ?_, by decide, by decide, by decide⟩
  · intro hu hv
    have ha := Atoi_digits ds hne hd (by omega)
    have hl : unicodeToLower u.val = 107 := by
      rcases hu with h | h <;> subst h <;> decide
    have w1 : wrapInt ((decVal ds : Int) * 1024) = (decVal ds : Int) * 1024 :=
      wrapInt_of_fits _ (by omega) (by omega)
    rw [parseSize_append, if_pos hl, ha, w1]
  · intro hu hv
    have ha := Atoi_digits ds hne hd (by omega)
    have hl : unicodeToLower u.val = 109 := by
      rcases hu with h | h <;> subst h <;> decide
    have hl0 : ¬ unicodeToLower u.val = 107 := by omega
    have w1 : wrapInt ((decVal ds : Int) * 1024) = (decVal ds : Int) * 1024 :=
      wrapInt_of_fits _ (by omega) (by omega)
    have w2 : wrapInt ((decVal ds : Int) * 1024 * 1024) = (decVal ds : Int) * 1024 * 1024 :=
      wrapInt_of_fits _ (by omega) (by omega)
    have e : (decVal ds : Int) * 1024 * 1024 = (decVal ds : Int) * 1024 ^ 2 := by ring
    rw [parseSize_append, if_neg hl0, if_pos hl, ha, w1, w2, e]
  · intro hu hv
    have ha := Atoi_digits ds hne hd (by omega)
    have hl : unicodeToLower u.val = 103 := by
      rcases hu with h | h <;> subst h <;> decide
    have hl0 : ¬ unicodeToLower u.val = 107 := by omega
    have hl1 : ¬ unicodeToLower u.val = 109 := by omega
    have w1 : wrapInt ((decVal ds : Int) * 1024) = (decVal ds : Int) * 1024 :=
      wrapInt_of_fits _ (by omega) (by omega)
    have w2 : wrapInt ((decVal ds : Int) * 1024 * 1024) = (decVal ds : Int) * 1024 * 1024 :=
      wrapInt_of_fits _ (by omega) (by omega)
    have w3 : wrapInt ((decVal ds : Int) * 1024 * 1024 * 1024) =
        (decVal ds : Int) * 1024 * 1024 * 1024 :=
      wrapInt_of_fits _ (by omega) (by omega)
    have e : (decVal ds : Int) * 1024 * 1024 * 1024 = (decVal ds : Int) * 1024 ^ 3 := by ring
    rw [parseSize_append, if_neg hl0, if_neg hl1, if_pos hl, ha, w1, w2, w3, e]

/-- Claim C5 has an input: the label `64K`. -/
theorem parseSize_unit_witness :
    parseSize (str "64" ++ [75]) = some ((decVal (str "64") : Int) * 1024) :=
  (parseSize_unit (str "64") 75 (by decide) (by decide)).1 (Or.inr rfl)
    (by rw [show decVal (str "64") = 64 from by decide]; norm_num)

/-- Claim C6 fails on the label `512`: `parseSize` takes the last byte `2` for the unit
and parses only `51`, so it returns 51 and not the decimal value 512 of the string. -/
theorem parseSize_digits_only_drops_last :
    parseSize (str "512") = some 51 ∧ decVal (str "512") = 512 := by
  decide

/-- Claim C9 fails on the empty string: `parseSize("")` indexes `s[len(s)-1]` with
`len(s) = 0` and panics; it does not return 0. -/
theorem parseSize_empty_panics : parseSize (str "") = none := by
  decide

theorem parseUintLoop_bad (front rest : GoString) (c : Byte) (n : Nat)
    (hd : ∀ d ∈ front, isDigit d = true) (hc : isDigit c = false)
    (hv : front.foldl (fun n c => n * 10 + (c.val - 48)) n < 2 ^ 64) :
    parseUintLoop (front ++ c :: rest) n = (0, some NumError.ErrSyntax) := by
  induction front generalizing n with
  | nil => simp [parseUintLoop, hc]
  | cons d ds ih =>
    simp only [List.foldl_cons] at hv
    have hdd : isDigit d = true := hd d (List.mem_cons_self _ _)
    have hge := foldl_step_ge ds (n * 10 + (d.val - 48))
    have hlt : n * 10 + (d.val - 48) < 2 ^ 64 := lt_of_le_of_lt hge hv
    have hmod : (n * 10 + (d.val - 48)) % 2 ^ 64 = n * 10 + (d.val - 48) := Nat.mod_eq_of_lt hlt
    have h1 : ¬ (n ≥ maxUint64 / 10 + 1) := by
      simp only [maxUint64]; omega
    have h2 : ¬ ((n * 10 + (d.val - 48)) % 2 ^ 64 < n * 10 ∨
        (n * 10 + (d.val - 48)) % 2 ^ 64 > maxUint64) := by
      rw [hmod]; simp only [maxUint64]; omega
    rw [List.cons_append, parseUintLoop]
    simp only [hdd, if_true, h1, if_false, h2]
    rw [hmod]
    exact ih _ (fun x hx => hd x (List.mem_cons_of_mem _ hx)) hv

theorem Atoi_of_syntax (p : GoString) (h : (ParseUint (stripSign p)) = (0, some NumError.ErrSyntax)) :
    (Atoi p).1 = 0 := by
  unfold Atoi ParseInt
  split
  · rfl
  · rw [h]

theorem parseSize_of_zero (p : GoString) (u : Byte) (h : (Atoi p).1 = 0) :
    parseSize (p ++ [u]) = some 0 := by
  rw [parseSize_append, h]
  have w : wrapInt (0 * 1024) = 0 := by decide
  simp only [w]
  split
  · rfl
  · split
    · rfl
    · split <;> rfl

/-- Claim C10 as amended. A magnitude `p` (the bytes before the final byte `u`) that
`strconv.Atoi` rejects makes `parseSize` return 0: either `p` is a lone sign, or `p`, after
one optional leading `+` or `-`, has a byte that is not a decimal digit and the digits in
front of the first such byte have a value below 2^64. -/
theorem parseSize_malformed (p : GoString) (u : Byte)
    (h : (p ≠ [] ∧ stripSign p = []) ∨
      ∃ front c rest, stripSign p = front ++ c :: rest ∧ (∀ d ∈ front, isDigit d = true) ∧
        isDigit c = false ∧ decVal front < 2 ^ 64) :
    parseSize (p ++ [u]) = some 0 := by
  apply parseSize_of_zero
  apply Atoi_of_syntax
  rcases h with ⟨_, hs⟩ | ⟨front, c, rest, hs, hd, hc, hv⟩
  · rw [hs]; rfl
  · rw [hs]
    unfold ParseUint
    rw [if_neg (by simp)]
    exact parseUintLoop_bad front rest c 0 hd hc hv

/-- Claim C10 as amended has an input: the label `4x6k`. -/
theorem parseSize_malformed_witness : parseSize (str "4x6" ++ str "k") = some 0 :=
  parseSize_malformed (str "4x6") 107
    (Or.inr ⟨str "4", 120, str "6", by decide, by decide, by decide, by decide⟩)

/-- Claim C10 as stated fails: in `+4k` and `-4k` the magnitude holds a byte that is not
a digit, yet `parseSize` returns 4096 and -4096, since `strconv.Atoi` reads the sign; and
in `99999999999999999999xk` the digits overflow before `x` is met, `Atoi` returns the
largest `int`, and `parseSize` returns -1024. -/
theorem parseSize_signed_magnitude :
    (∃ c ∈ str "+4", isDigit c = false) ∧ parseSize (str "+4" ++ str "k") = some 4096 ∧
    (∃ c ∈ str "-4", isDigit c = false) ∧ parseSize (str "-4" ++ str "k") = some (-4096) ∧
    (∃ c ∈ str "99999999999999999999x", isDigit c = false) ∧
    parseSize (str "99999999999999999999x" ++ str "k") = some (-1024) := by
  decide

theorem splitString_parts (name : GoString)
    (h : 3 ≤ (stringsSplit name underscore).length) :
    ∃ front jobs bs, stringsSplit name underscore = front ++ [jobs, bs] ∧
      splitString name = (stringsJoin front underscore, jobs, bs) := by
  generalize hp : stringsSplit name underscore = parts at h
  have hsplit : splitString name =
      (stringsJoin (parts.take (parts.length - 2)) underscore,
        parts.getD (parts.length - 2) [], parts.getD (parts.length - 1) []) := by
    unfold splitString
    simp only [hp]
    rw [if_neg (by omega)]
  refine ⟨parts.take (parts.length - 2), parts.getD (parts.length - 2) [],
    parts.getD (parts.length - 1) [], ?_, hsplit⟩
  have hd : parts.drop (parts.length - 2) =
      [parts.getD (parts.length - 2) [], parts.getD (parts.length - 1) []] := by
    apply List.ext_getElem
    · simp; omega
    · intro i h1 h2
      simp at h2
      have hi : i = 0 ∨ i = 1 := by omega
      rcases hi with rfl | rfl
      · simp [List.getD_eq_getElem?_getD,
          List.getElem?_eq_getElem (show parts.length - 2 < parts.length by omega)]
      · have e : parts.length - 2 + 1 = parts.length - 1 := by omega
        simp [List.getD_eq_getElem?_getD, e,
          List.getElem?_eq_getElem (show parts.length - 1 < parts.length by omega)]
  rw [← hd, List.take_append_drop]

/-- Claim C4. An identifier that `strings.Split` cuts at `'_'` into at least 3 segments:
the segments are `front ++ [jobs, bs]`, and `splitString` returns `front` joined again
with `'_'` as name, the second-to-last segment `jobs` as concurrency and the last one `bs`
as block-size label; `seq_write_8_4k` gives `(seq_write, 8, 4k)` and `a_b_c_1_64k` gives
`(a_b_c, 1, 64k)`. -/
theorem splitString_segments (name : GoString)
    (h : 3 ≤ (stringsSplit name underscore).length) :
    (∃ front jobs bs, stringsSplit name underscore = front ++ [jobs, bs] ∧
      splitString name = (stringsJoin front underscore, jobs, bs)) ∧
    splitString (str "seq_write_8_4k") = (str "seq_write", str "8", str "4k") ∧
    splitString (str "a_b_c_1_64k") = (str "a_b_c", str "1", str "64k") :=
  ⟨splitString_parts name h, by decide, by decide⟩

/-- Claim C4 has an input: the identifier `a_1_4k`. -/
theorem splitString_segments_witness :
    ∃ front jobs bs, stringsSplit (str "a_1_4k") underscore = front ++ [jobs, bs] ∧
      splitString (str "a_1_4k") = (stringsJoin front underscore, jobs, bs) :=
  (splitString_segments (str "a_1_4k") (by decide)).1

theorem cell_insert {F : Type} (d : GoMap (GoMap (GoMap (Metrics F)))) (j b n : GoString)
    (m : Metrics F) (j' b' n' : GoString) :
    cell (d.insert j (((d.lookup j).getD ∅).insert b
        (((((d.lookup j).getD ∅).lookup b).getD ∅).insert n m))) j' b' n' =
      if j' = j ∧ b' = b ∧ n' = n then some m else cell d j' b' n' := by
  unfold cell
  by_cases hj : j' = j
  · subst hj
    rw [Finmap.lookup_insert]
    by_cases hb : b' = b
    · subst hb
      simp only [Option.some_bind, Finmap.lookup_insert]
      by_cases hn : n' = n
      · subst hn
        simp
      · rw [Finmap.lookup_insert_of_ne _ hn]
        simp only [hn, and_false, if_false]
        cases h1 : d.lookup j' with
        | none => simp
        | some jm =>
          cases h2 : jm.lookup b' with
          | none => simp [h2]
          | some bm => simp [h2]
    · simp only [Option.some_bind, Finmap.lookup_insert_of_ne _ hb, hb, false_and, and_false,
        if_false]
      cases h1 : d.lookup j' with
      | none => simp
      | some jm => simp
  · rw [Finmap.lookup_insert_of_ne _ hj]
    simp [hj]

theorem cell_parserStep {F : Type} [Float64 F] (p : RADOSBenchData F)
    (e : GoString × RADOSBenchOutput) (j b n : GoString) :
    cell (parserStep p e).data j b n =
      if (n, j, b) = splitString e.1 then some e.2.metrics else cell p.data j b n := by
  unfold parserStep
  simp only []
  rw [cell_insert]
  by_cases h : (n, j, b) = splitString e.1
  · rw [if_pos h, if_pos]
    rw [← h]
    exact ⟨rfl, rfl, rfl⟩
  · rw [if_neg h, if_neg]
    rintro ⟨h1, h2, h3⟩
    apply h
    rw [h1, h2, h3]

theorem cell_foldl_parserStep {F : Type} [Float64 F] (rbs : RADOSBenchOutputs)
    (p : RADOSBenchData F) (j b n : GoString) :
    cell (rbs.foldl parserStep p).data j b n =
      rbs.foldl (fun acc e => if (n, j, b) = splitString e.1 then some e.2.metrics else acc)
        (cell p.data j b n) := by
  induction rbs generalizing p with
  | nil => rfl
  | cons e es ih =>
    simp only [List.foldl_cons]
    rw [ih, cell_parserStep]

theorem foldl_written_skip {M : Type} (t : GoString × GoString × GoString)
    (f : RADOSBenchOutput → M) (rbs : RADOSBenchOutputs) (init : Option M)
    (h : ∀ e ∈ rbs, t ≠ splitString e.1) :
    rbs.foldl (fun acc e => if t = splitString e.1 then some (f e.2) else acc) init = init := by
  induction rbs generalizing init with
  | nil => rfl
  | cons e es ih =>
    simp only [List.foldl_cons]
    rw [if_neg (h e (List.mem_cons_self _ _))]
    exact ih init (fun x hx => h x (List.mem_cons_of_mem _ hx))

theorem foldl_written_eq {M : Type} (t : GoString × GoString × GoString)
    (f : RADOSBenchOutput → M) (m : M) (rbs : RADOSBenchOutputs) (init : Option M)
    (hall : ∀ e ∈ rbs, t = splitString e.1 → f e.2 = m)
    (hex : init = some m ∨ ∃ e ∈ rbs, t = splitString e.1) :
    rbs.foldl (fun acc e => if t = splitString e.1 then some (f e.2) else acc) init = some m := by
  induction rbs generalizing init with
  | nil =>
    rcases hex with h | ⟨e, he, _⟩
    · exact h
    · exact absurd he (List.not_mem_nil _)
  | cons e es ih =>
    simp only [List.foldl_cons]
    apply ih _ (fun x hx => hall x (List.mem_cons_of_mem _ hx))
    by_cases he : t = splitString e.1
    · left
      rw [if_pos he, hall e (List.mem_cons_self _ _) he]
    · rw [if_neg he]
      rcases hex with h | ⟨x, hx, hxt⟩
      · exact Or.inl h
      · rcases List.mem_cons.1 hx with rfl | hx'
        · exact absurd hxt he
        · exact Or.inr ⟨x, hx', hxt⟩

theorem intercalate_append_two (sep : GoString) (front : List GoString) (hne : front ≠ [])
    (j b : GoString) :
    sep.intercalate (front ++ [j, b]) = sep.intercalate front ++ sep ++ j ++ sep ++ b := by
  induction front with
  | nil => exact absurd rfl hne
  | cons x xs ih =>
    cases xs with
    | nil => simp [List.intercalate, List.intersperse]
    | cons y ys =>
      have h := ih (by simp)
      simp only [List.intercalate, List.cons_append, List.intersperse_cons_cons,
        List.flatten_cons, List.append_assoc] at h ⊢
      rw [h]

theorem splitString_join (name : GoString) (h : validId name = true) :
    name = (splitString name).1 ++ [underscore] ++ (splitString name).2.1 ++ [underscore] ++
      (splitString name).2.2 := by
  simp only [validId, decide_eq_true_eq] at h
  obtain ⟨front, jobs, bs, hp, hs⟩ := splitString_parts name h
  have hfront : front ≠ [] := by
    intro hf
    rw [hp, hf] at h
    simp at h
  have hj := List.intercalate_splitOn name underscore
  unfold stringsSplit at hp
  rw [hp, intercalate_append_two [underscore] front hfront jobs bs] at hj
  rw [hs]
  exact hj.symm

theorem splitString_injective (s t : GoString) (hs : validId s = true) (ht : validId t = true)
    (h : splitString s = splitString t) : s = t := by
  rw [splitString_join s hs, splitString_join t ht, h]

theorem splitString_invalid (name : GoString) (h : validId name = false) :
    splitString name = ([], [], []) := by
  simp only [validId, decide_eq_false_iff_not, not_le] at h
  unfold splitString
  simp only [h, if_true]

theorem entry_unique (rbs : RADOSBenchOutputs) (hk : (rbs.map Prod.fst).Nodup)
    (e e' : GoString × RADOSBenchOutput) (he : e ∈ rbs) (he' : e' ∈ rbs) (h : e.1 = e'.1) :
    e = e' :=
  List.inj_on_of_nodup_map hk he he' h

/-- Claim C7 as amended. For every input map (pairwise distinct identifiers, in whatever
order `range` yields them) and every identifier of it with at least 3 segments and
`splitString(identifier) = (n, jobs, bs)`: the store has `data[jobs][bs][n]` equal to the
metrics of that identifier's record, provided the triple is not `("", "", "")` or no
identifier of the input has fewer than 3 segments. -/
theorem parserJsonContent_stores_valid {F : Type} [Float64 F] (rbs : RADOSBenchOutputs)
    (hk : (rbs.map Prod.fst).Nodup) (name : GoString) (content : RADOSBenchOutput)
    (hmem : (name, content) ∈ rbs) (hv : validId name = true) (n jobs bs : GoString)
    (hs : splitString name = (n, jobs, bs))
    (hx : (n, jobs, bs) ≠ ([], [], []) ∨ ∀ e ∈ rbs, validId e.1 = true) :
    cell (parserJsonContent rbs : RADOSBenchData F).data jobs bs n = some content.metrics := by
  unfold parserJsonContent
  rw [cell_foldl_parserStep]
  apply foldl_written_eq (n, jobs, bs) (fun r => (r.metrics : Metrics F))
  · intro e he ht
    have hve : validId e.1 = true := by
      rcases hx with hx | hx
      · cases hval : validId e.1 with
        | true => rfl
        | false =>
          rw [splitString_invalid e.1 hval] at ht
          exact absurd ht hx
      · exact hx e he
    have hname : e.1 = name := splitString_injective e.1 name hve hv (by rw [← ht, hs])
    have := entry_unique rbs hk e (name, content) he hmem hname
    rw [this]
  · exact Or.inr ⟨(name, content), hmem, hs.symm⟩

/-- Claim C7 as amended has an input: `write_1_4k` in the scenario of the specification. -/
theorem parserJsonContent_stores_valid_witness :
    cell (parserJsonContent scenarioInput : RADOSBenchData SymFloat).data (str "1") (str "4k")
      (str "write") = some (sampleRecord "100" "10.0" "0.005").metrics :=
  parserJsonContent_stores_valid scenarioInput (by decide) (str "write_1_4k")
    (sampleRecord "100" "10.0" "0.005") (by decide) (by decide) (str "write") (str "1")
    (str "4k") (by decide) (Or.inl (by decide))

/-- Claim C7 as stated fails on the files `__.json` and `x.json`: `__` has 3 (empty)
segments and the triple `("", "", "")`, the one-segment name `x` gets the same triple,
and when `range` yields `x` last, `data[""][""][""]` holds the metrics of `x`, not those
of `__`. -/
theorem parserJsonContent_collision :
    (collidingInput.map Prod.fst).Nodup ∧ (str "__", sampleRecord "7" "1.0" "0.1") ∈ collidingInput ∧
    3 ≤ (stringsSplit (str "__") underscore).length ∧
    splitString (str "__") = (str "", str "", str "") ∧
    cell (parserJsonContent collidingInput : RADOSBenchData SymFloat).data (str "") (str "")
      (str "") = some (sampleRecord "9" "2.0" "0.2").metrics ∧
    ((sampleRecord "9" "2.0" "0.2").metrics : Metrics SymFloat).IOPS ≠
      ((sampleRecord "7" "1.0" "0.1").metrics : Metrics SymFloat).IOPS := by
  decide

theorem foldl_written_filter {M : Type} (t : GoString × GoString × GoString)
    (f : RADOSBenchOutput → M) (keep : GoString × RADOSBenchOutput → Bool)
    (rbs : RADOSBenchOutputs) (init : Option M)
    (h : ∀ e ∈ rbs, keep e = false → t ≠ splitString e.1) :
    (rbs.filter keep).foldl (fun acc e => if t = splitString e.1 then some (f e.2) else acc) init =
      rbs.foldl (fun acc e => if t = splitString e.1 then some (f e.2) else acc) init := by
  induction rbs generalizing init with
  | nil => rfl
  | cons e es ih =>
    have hes : ∀ x ∈ es, keep x = false → t ≠ splitString x.1 :=
      fun x hx => h x (List.mem_cons_of_mem _ hx)
    cases hk : keep e with
    | true =>
      rw [List.filter_cons_of_pos (by simpa using hk)]
      simp only [List.foldl_cons]
      exact ih _ hes
    | false =>
      rw [List.filter_cons_of_neg (by simp [hk])]
      simp only [List.foldl_cons]
      rw [if_neg (h e (List.mem_cons_self _ _) hk)]
      exact ih _ hes

theorem lookup_parserStep {F : Type} [Float64 F] (p q : RADOSBenchData F)
    (e : GoString × RADOSBenchOutput) (j : GoString)
    (h : p.data.lookup j = q.data.lookup j) :
    (parserStep p e).data.lookup j = (parserStep q e).data.lookup j := by
  unfold parserStep
  simp only []
  by_cases hj : j = (splitString e.1).2.1
  · subst hj
    rw [Finmap.lookup_insert, Finmap.lookup_insert, h]
  · rw [Finmap.lookup_insert_of_ne _ hj, Finmap.lookup_insert_of_ne _ hj, h]

theorem lookup_parserStep_ne {F : Type} [Float64 F] (p : RADOSBenchData F)
    (e : GoString × RADOSBenchOutput) (j : GoString) (hj : j ≠ (splitString e.1).2.1) :
    (parserStep p e).data.lookup j = p.data.lookup j := by
  unfold parserStep
  simp only []
  rw [Finmap.lookup_insert_of_ne _ hj]

theorem lookup_foldl_filter {F : Type} [Float64 F] (rbs : RADOSBenchOutputs)
    (p q : RADOSBenchData F) (j : GoString) (hj : j ≠ [])
    (h : p.data.lookup j = q.data.lookup j) :
    (rbs.foldl parserStep p).data.lookup j =
      ((rbs.filter (fun e => validId e.1)).foldl parserStep q).data.lookup j := by
  induction rbs generalizing p q with
  | nil => exact h
  | cons e es ih =>
    cases hk : validId e.1 with
    | true =>
      rw [List.filter_cons_of_pos (by simpa using hk)]
      simp only [List.foldl_cons]
      exact ih _ _ (lookup_parserStep p q e j h)
    | false =>
      rw [List.filter_cons_of_neg (by simp [hk])]
      simp only [List.foldl_cons]
      apply ih
      rw [lookup_parserStep_ne p e j (by rw [splitString_invalid e.1 hk]; exact hj)]
      exact h

theorem foldl_written_last {M : Type} (t : GoString × GoString × GoString)
    (f : RADOSBenchOutput → M) (front back : RADOSBenchOutputs)
    (e : GoString × RADOSBenchOutput) (init : Option M) (he : t = splitString e.1)
    (hback : ∀ x ∈ back, t ≠ splitString x.1) :
    (front ++ e :: back).foldl
      (fun acc x => if t = splitString x.1 then some (f x.2) else acc) init = some (f e.2) := by
  rw [List.foldl_append, List.foldl_cons, if_pos he]
  exact foldl_written_skip t f back _ hback

theorem foldl_written_exists {M : Type} (t : GoString × GoString × GoString)
    (f : RADOSBenchOutput → M) (rbs : RADOSBenchOutputs) (init : Option M)
    (hex : ∃ x ∈ rbs, t = splitString x.1) :
    ∃ x ∈ rbs, t = splitString x.1 ∧
      rbs.foldl (fun acc x => if t = splitString x.1 then some (f x.2) else acc) init =
        some (f x.2) := by
  induction rbs generalizing init with
  | nil =>
    obtain ⟨x, hx, _⟩ := hex
    exact absurd hx (List.not_mem_nil _)
  | cons y ys ih =>
    simp only [List.foldl_cons]
    by_cases hys : ∃ x ∈ ys, t = splitString x.1
    · obtain ⟨x, hx, hxt, hfold⟩ := ih (if t = splitString y.1 then some (f y.2) else init) hys
      exact ⟨x, List.mem_cons_of_mem _ hx, hxt, hfold⟩
    · have hskip : ∀ x ∈ ys, t ≠ splitString x.1 := fun x hx hxt => hys ⟨x, hx, hxt⟩
      have hy : t = splitString y.1 := by
        obtain ⟨x, hx, hxt⟩ := hex
        rcases List.mem_cons.1 hx with h | h
        · rw [← h]; exact hxt
        · exact absurd hxt (hskip x h)
      refine ⟨y, List.mem_cons_self _ _, hy, ?_⟩
      rw [foldl_written_skip t f ys _ hskip, if_pos hy]

/-- Claim C8 as amended. An identifier with fewer than 3 segments is not skipped: it is
written to `data[""][""][""]`. When the input holds such an identifier, that cell ends
with the metrics of an entry of the input whose triple is `("", "", "")`, namely of the
last such entry that `range` yields. That is all it does: every level other than `""` is
the same map as in the store built from the input without such identifiers, and so is
every cell `data[jobs][bs][n]` other than `data[""][""][""]`. -/
theorem parserJsonContent_invalid_ids {F : Type} [Float64 F] (rbs : RADOSBenchOutputs) :
    (∀ e ∈ rbs, validId e.1 = false →
      ∃ e2 ∈ rbs, splitString e2.1 = ([], [], []) ∧
        cell (parserJsonContent rbs : RADOSBenchData F).data [] [] [] = some e2.2.metrics) ∧
    (∀ (front back : RADOSBenchOutputs) (e : GoString × RADOSBenchOutput),
      rbs = front ++ e :: back → validId e.1 = false →
      (∀ x ∈ back, splitString x.1 ≠ ([], [], [])) →
      cell (parserJsonContent rbs : RADOSBenchData F).data [] [] [] = some e.2.metrics) ∧
    (∀ jobs, jobs ≠ [] →
      (parserJsonContent rbs : RADOSBenchData F).data.lookup jobs =
        (parserJsonContent (rbs.filter (fun e => validId e.1)) : RADOSBenchData F).data.lookup
          jobs) ∧
    (∀ jobs bs n, (n, jobs, bs) ≠ ([], [], []) →
      cell (parserJsonContent rbs : RADOSBenchData F).data jobs bs n =
        cell (parserJsonContent (rbs.filter (fun e => validId e.1)) : RADOSBenchData F).data
          jobs bs n) := by
  refine ⟨?_, ?_, ?_, ?_⟩
  · intro e he hv
    unfold parserJsonContent
    rw [cell_foldl_parserStep]
    obtain ⟨x, hx, hxt, hfold⟩ := foldl_written_exists
      (([] : GoString), ([] : GoString), ([] : GoString))
      (fun r => (r.metrics : Metrics F)) rbs
      (cell (∅ : GoMap (GoMap (GoMap (Metrics F)))) [] [] [])
      ⟨e, he, (splitString_invalid e.1 hv).symm⟩
    exact ⟨x, hx, hxt.symm, hfold⟩
  · intro front back e hrbs hv hback
    unfold parserJsonContent
    rw [cell_foldl_parserStep, hrbs]
    exact foldl_written_last (([] : GoString), ([] : GoString), ([] : GoString))
      (fun r => (r.metrics : Metrics F)) front back e _ (splitString_invalid e.1 hv).symm
      (fun x hx h => hback x hx h.symm)
  · intro jobs hj
    unfold parserJsonContent
    exact lookup_foldl_filter rbs _ _ jobs hj rfl
  · intro jobs bs n ht
    unfold parserJsonContent
    rw [cell_foldl_parserStep, cell_foldl_parserStep]
    symm
    apply foldl_written_filter (n, jobs, bs) (fun r => (r.metrics : Metrics F))
    intro e _ hk
    rw [splitString_invalid e.1 hk]
    exact ht

/-- Claim C8 as amended has an input: the valid `write_1_4k` followed by `a_b`, whose
metrics end in `data[""][""][""]` while level `1` is as without it. -/
theorem parserJsonContent_invalid_ids_witness :
    (∃ e2 ∈ mixedInput, splitString e2.1 = ([], [], []) ∧
      cell (parserJsonContent mixedInput : RADOSBenchData SymFloat).data [] [] [] =
        some e2.2.metrics) ∧
    cell (parserJsonContent mixedInput : RADOSBenchData SymFloat).data [] [] [] =
      some (sampleRecord "3" "1.0" "0.1").metrics ∧
    (parserJsonContent mixedInput : RADOSBenchData SymFloat).data.lookup (str "1") =
      (parserJsonContent (mixedInput.filter (fun e => validId e.1)) :
        RADOSBenchData SymFloat).data.lookup (str "1") ∧
    cell (parserJsonContent mixedInput : RADOSBenchData SymFloat).data (str "1") (str "4k")
      (str "write") =
      cell (parserJsonContent (mixedInput.filter (fun e => validId e.1)) :
        RADOSBenchData SymFloat).data (str "1") (str "4k") (str "write") :=
  ⟨(parserJsonContent_invalid_ids mixedInput).1 (str "a_b", sampleRecord "3" "1.0" "0.1")
      (by decide) (by decide),
    (parserJsonContent_invalid_ids mixedInput).2.1
      [(str "write_1_4k", sampleRecord "100" "10.0" "0.005")] []
      (str "a_b", sampleRecord "3" "1.0" "0.1") (by decide) (by decide)
      (fun x hx => absurd hx (List.not_mem_nil _)),
    (parserJsonContent_invalid_ids mixedInput).2.2.1 (str "1") (by decide),
    (parserJsonContent_invalid_ids mixedInput).2.2.2 (str "1") (str "4k") (str "write")
      (by decide)⟩

/-- Claim C8 as stated fails on the single file `notes.json`: its name has 1 segment,
yet the store is not the (empty) store of the input without it: it has the level `""`,
and `data[""][""][""]` holds the record's metrics. -/
theorem parserJsonContent_keeps_invalid :
    (stringsSplit (str "notes") underscore).length < 3 ∧
    (parserJsonContent invalidInput : RADOSBenchData SymFloat).data ≠
      (parserJsonContent (invalidInput.filter (fun e => validId e.1)) :
        RADOSBenchData SymFloat).data ∧
    (str "") ∈ (parserJsonContent invalidInput : RADOSBenchData SymFloat).data ∧
    cell (parserJsonContent invalidInput : RADOSBenchData SymFloat).data (str "") (str "")
      (str "") = some (sampleRecord "3" "1.0" "0.1").metrics := by
  decide

/-! ### Insertion sort with a comparison that may panic -/

theorem insertLeft_spec {α : Type} (less : α → α → Option Bool) (le : α → α → Prop)
    (htrans : ∀ a b c, le a b → le b c → le a c) (htotal : ∀ a b, le a b ∨ le b a)
    [DecidableRel le] (x : α) (rev : List α)
    (hless : ∀ y ∈ rev, less x y = some (decide (¬ le y x)))
    (hsorted : rev.Pairwise (fun a b => le b a)) :
    ∃ r, insertLeft less x rev = some r ∧ r.Perm (x :: rev) ∧ r.Pairwise (fun a b => le b a) := by
  induction rev with
  | nil => exact ⟨[x], rfl, List.Perm.refl _, List.pairwise_singleton _ _⟩
  | cons y ys ih =>
    have hy := hless y (List.mem_cons_self _ _)
    have hys := List.pairwise_cons.1 hsorted
    by_cases hle : le y x
    · refine ⟨x :: y :: ys, ?_, List.Perm.refl _, ?_⟩
      · simp [insertLeft, hy, hle]
      · refine List.pairwise_cons.2 ⟨?_, hsorted⟩
        intro z hz
        rcases List.mem_cons.1 hz with rfl | hz'
        · exact hle
        · exact htrans _ _ _ (hys.1 z hz') hle
    · obtain ⟨r, hr, hperm, hpw⟩ :=
        ih (fun z hz => hless z (List.mem_cons_of_mem _ hz)) hys.2
      refine ⟨y :: r, ?_, ?_, ?_⟩
      · simp [insertLeft, hy, hle, hr]
      · exact (List.Perm.cons y hperm).trans (List.Perm.swap x y ys)
      · refine List.pairwise_cons.2 ⟨?_, hpw⟩
        intro z hz
        rcases List.mem_cons.1 (hperm.subset hz) with rfl | hz'
        · exact (htotal z y).resolve_right hle
        · exact hys.1 z hz'

theorem insertAll_spec {α : Type} (less : α → α → Option Bool) (le : α → α → Prop)
    (htrans : ∀ a b c, le a b → le b c → le a c) (htotal : ∀ a b, le a b ∨ le b a)
    [DecidableRel le] (l rev : List α)
    (hless : ∀ x ∈ l ++ rev, ∀ y ∈ l ++ rev, less x y = some (decide (¬ le y x)))
    (hsorted : rev.Pairwise (fun a b => le b a)) :
    ∃ r, insertAll less l rev = some r ∧ r.Perm (l.reverse ++ rev) ∧
      r.Pairwise (fun a b => le b a) := by
  induction l generalizing rev with
  | nil => exact ⟨rev, rfl, by simp, hsorted⟩
  | cons x xs ih =>
    obtain ⟨r1, hr1, hperm1, hpw1⟩ := insertLeft_spec less le htrans htotal x rev
      (fun y hy => hless x (by simp) y (by simp [hy])) hsorted
    have hsub : ∀ z, z ∈ xs ++ r1 → z ∈ x :: xs ++ rev := by
      intro z hz
      rcases List.mem_append.1 hz with h | h
      · simp [h]
      · rcases List.mem_cons.1 (hperm1.subset h) with rfl | h'
        · simp
        · simp [h']
    obtain ⟨r, hr, hperm, hpw⟩ := ih r1
      (fun a ha b hb => hless a (hsub a ha) b (hsub b hb)) hpw1
    refine ⟨r, ?_, ?_, hpw⟩
    · simp [insertAll, hr1, hr]
    · refine hperm.trans ?_
      rw [List.reverse_cons, List.append_assoc]
      exact List.Perm.append_left _ hperm1

theorem sortSort_spec {α : Type} (less : α → α → Option Bool) (le : α → α → Prop)
    (htrans : ∀ a b c, le a b → le b c → le a c) (htotal : ∀ a b, le a b ∨ le b a)
    [DecidableRel le] (l : List α)
    (hless : ∀ x ∈ l, ∀ y ∈ l, less x y = some (decide (¬ le y x))) :
    ∃ r, sortSort less l = some r ∧ r.Perm l ∧ r.Pairwise le := by
  obtain ⟨r, hr, hperm, hpw⟩ := insertAll_spec less le htrans htotal l []
    (by simp only [List.append_nil]; exact hless) List.Pairwise.nil
  refine ⟨r.reverse, ?_, ?_, ?_⟩
  · simp [sortSort, hr]
  · refine (List.reverse_perm r).trans (hperm.trans ?_)
    rw [List.append_nil]
    exact List.reverse_perm l
  · exact List.pairwise_reverse.2 hpw

theorem parseSize_isSome (s : GoString) (h : s ≠ []) : ∃ v, parseSize s = some v := by
  obtain ⟨p, u, rfl⟩ : ∃ p u, s = p ++ [u] :=
    ⟨s.dropLast, s.getLast h, (List.dropLast_append_getLast h).symm⟩
  rw [parseSize_append]
  split
  · exact ⟨_, rfl⟩
  · split
    · exact ⟨_, rfl⟩
    · split <;> exact ⟨_, rfl⟩

theorem BySize_Less_eq (x y : GoString) (hx : x ≠ []) (hy : y ≠ []) :
    BySize.Less x y =
      some (decide (¬ ((parseSize y).getD 0 ≤ (parseSize x).getD 0))) := by
  obtain ⟨a, ha⟩ := parseSize_isSome x hx
  obtain ⟨b, hb⟩ := parseSize_isSome y hy
  simp [BySize.Less, ha, hb]

theorem sortSort_BySize (l : List GoString) (h : ∀ x ∈ l, x ≠ []) :
    ∃ r, sortSort BySize.Less l = some r ∧ r.Perm l ∧
      r.Pairwise (fun a b => (parseSize a).getD 0 ≤ (parseSize b).getD 0) :=
  sortSort_spec BySize.Less (fun a b => (parseSize a).getD 0 ≤ (parseSize b).getD 0)
    (fun _ _ _ h1 h2 => le_trans h1 h2) (fun _ _ => le_total _ _) l
    (fun x hx y hy => BySize_Less_eq x y (h x hx) (h y hy))

theorem sortStrings_spec (l : List GoString) :
    (sortStrings l).Perm l ∧ (sortStrings l).Pairwise (fun a b => a ≤ b) := by
  obtain ⟨r, hr, hperm, hpw⟩ := sortSort_spec (fun x y => some (decide (x < y)))
    (fun (a b : GoString) => a ≤ b) (fun _ _ _ h1 h2 => le_trans h1 h2)
    (fun _ _ => le_total _ _) l (fun x _ y _ => by simp)
  simp only [sortStrings, hr, Option.getD_some]
  exact ⟨hperm, hpw⟩

/-! ### The loops of `sort` -/

theorem sliceAt_insert (m : UintMap (List GoString)) (k : Nat) (l : List GoString) :
    sliceAt (m.insert k l) k = l := by
  simp [sliceAt, Finmap.lookup_insert]

theorem sortItems_fold {F : Type} (c : Nat) (l : List GoString)
    (acc : RADOSBenchData F × Finset GoString) :
    ∃ extra : List GoString,
      (l.foldl (sortItemStep c) acc).1.data = acc.1.data ∧
      (l.foldl (sortItemStep c) acc).1.bss = acc.1.bss ∧
      (l.foldl (sortItemStep c) acc).1.IOPSData = acc.1.IOPSData ∧
      (l.foldl (sortItemStep c) acc).1.BWData = acc.1.BWData ∧
      (l.foldl (sortItemStep c) acc).1.LatencyData = acc.1.LatencyData ∧
      sliceAt (l.foldl (sortItemStep c) acc).1.items c = sliceAt acc.1.items c ++ extra ∧
      (l.foldl (sortItemStep c) acc).2 = acc.2 ∪ extra.toFinset ∧
      extra.Nodup ∧ ∀ x, x ∈ extra ↔ (x ∈ l ∧ x ∉ acc.2) := by
  induction l generalizing acc with
  | nil => exact ⟨[], rfl, rfl, rfl, rfl, rfl, by simp, by simp, List.nodup_nil, by simp⟩
  | cons y ys ih =>
    simp only [List.foldl_cons]
    by_cases hy : y ∈ acc.2
    · have hstep : sortItemStep c acc y = acc := by simp [sortItemStep, hy]
      rw [hstep]
      obtain ⟨extra, h1, h2, h3, h4, h5, h6, h7, h8, h9⟩ := ih acc
      refine ⟨extra, h1, h2, h3, h4, h5, h6, h7, h8, ?_⟩
      intro x
      rw [h9 x]
      constructor
      · rintro ⟨hx, hn⟩
        exact ⟨List.mem_cons_of_mem _ hx, hn⟩
      · rintro ⟨hx, hn⟩
        rcases List.mem_cons.1 hx with rfl | hx'
        · exact absurd hy hn
        · exact ⟨hx', hn⟩
    · have hstep : sortItemStep c acc y =
          ({ acc.1 with items := acc.1.items.insert c (sliceAt acc.1.items c ++ [y]) },
            insert y acc.2) := by
        simp [sortItemStep, hy]
      rw [hstep]
      obtain ⟨extra, h1, h2, h3, h4, h5, h6, h7, h8, h9⟩ := ih
        ({ acc.1 with items := acc.1.items.insert c (sliceAt acc.1.items c ++ [y]) },
          insert y acc.2)
      refine ⟨y :: extra, h1, h2, h3, h4, h5, ?_, ?_, ?_, ?_⟩
      · rw [h6]
        simp only [sliceAt_insert, List.append_assoc, List.singleton_append]
      · rw [h7]
        ext x
        simp only [Finset.mem_union, Finset.mem_insert, List.mem_toFinset, List.mem_cons]
        tauto
      · refine List.nodup_cons.2 ⟨?_, h8⟩
        intro hmem
        have := ((h9 y).1 hmem).2
        simp at this
      · intro x
        constructor
        · intro hx
          rcases List.mem_cons.1 hx with rfl | hx'
          · exact ⟨List.mem_cons_self _ _, hy⟩
          · have := (h9 x).1 hx'
            refine ⟨List.mem_cons_of_mem _ this.1, ?_⟩
            intro hacc
            exact this.2 (Finset.mem_insert_of_mem hacc)
        · rintro ⟨hx, hn⟩
          by_cases hxy : x = y
          · subst hxy; exact List.mem_cons_self _ _
          · refine List.mem_cons_of_mem _ ((h9 x).2 ⟨?_, ?_⟩)
            · rcases List.mem_cons.1 hx with h | h
              · exact absurd h hxy
              · exact h
            · intro hin
              rcases Finset.mem_insert.1 hin with h | h
              · exact hxy h
              · exact hn h

theorem sortLoop_fold {F : Type} (o : RangeOrder) (c : Nat) (outer : List GoString)
    (acc : RADOSBenchData F × Finset GoString) :
    ∃ extra : List GoString,
      (outer.foldl (sortBsStep o c) acc).1.data = acc.1.data ∧
      (outer.foldl (sortBsStep o c) acc).1.IOPSData = acc.1.IOPSData ∧
      (outer.foldl (sortBsStep o c) acc).1.BWData = acc.1.BWData ∧
      (outer.foldl (sortBsStep o c) acc).1.LatencyData = acc.1.LatencyData ∧
      sliceAt (outer.foldl (sortBsStep o c) acc).1.bss c = sliceAt acc.1.bss c ++ outer ∧
      sliceAt (outer.foldl (sortBsStep o c) acc).1.items c = sliceAt acc.1.items c ++ extra ∧
      (outer.foldl (sortBsStep o c) acc).2 = acc.2 ∪ extra.toFinset ∧
      extra.Nodup ∧ ∀ x, x ∈ extra ↔ ((∃ bs ∈ outer, x ∈ o.inner bs) ∧ x ∉ acc.2) := by
  induction outer generalizing acc with
  | nil => exact ⟨[], rfl, rfl, rfl, rfl, by simp, by simp, by simp, List.nodup_nil, by simp⟩
  | cons b bs ih =>
    simp only [List.foldl_cons]
    obtain ⟨e1, a1, a2, a3, a4, a5, a6, a7, a8, a9⟩ := sortItems_fold c (o.inner b)
      (({ acc.1 with bss := acc.1.bss.insert c (sliceAt acc.1.bss c ++ [b]) } :
        RADOSBenchData F), acc.2)
    have hstep : sortBsStep o c acc b = (o.inner b).foldl (sortItemStep c)
        (({ acc.1 with bss := acc.1.bss.insert c (sliceAt acc.1.bss c ++ [b]) } :
          RADOSBenchData F), acc.2) := rfl
    obtain ⟨e2, b1, b2, b3, b4, b5, b6, b7, b8, b9⟩ := ih (sortBsStep o c acc b)
    rw [hstep] at b1 b2 b3 b4 b5 b6 b7 b9
    rw [hstep]
    simp only [] at a1 a2 a3 a4 a5 a6 a7 a9
    refine ⟨e1 ++ e2, ?_, ?_, ?_, ?_, ?_, ?_, ?_, ?_, ?_⟩
    · rw [b1, a1]
    · rw [b2, a3]
    · rw [b3, a4]
    · rw [b4, a5]
    · rw [b5, a2, sliceAt_insert]; simp
    · rw [b6, a6]; simp
    · rw [b7, a7]
      ext x
      simp only [Finset.mem_union, List.mem_toFinset, List.mem_append]
      tauto
    · refine List.nodup_append.2 ⟨a8, b8, ?_⟩
      intro x hx1 hx2
      have := ((b9 x).1 hx2).2
      rw [a7] at this
      apply this
      simp [hx1]
    · intro x
      rw [List.mem_append, a9 x, b9 x, a7]
      simp only [Finset.mem_union, List.mem_toFinset, List.mem_cons, exists_eq_or_imp,
        not_or, a9 x]
      by_cases hxb : x ∈ o.inner b <;> by_cases hacc : x ∈ acc.2 <;> simp [hxb, hacc]

theorem sliceAt_of_not_mem (m : UintMap (List GoString)) (k : Nat) (h : k ∉ m) :
    sliceAt m k = [] := by
  simp [sliceAt, Finmap.lookup_eq_none.2 h]

theorem sort_fresh {F : Type} (o : RangeOrder) (p : RADOSBenchData F) (c : Nat)
    (jobData : GoMap (GoMap (Metrics F))) (hb : sliceAt p.bss c = [])
    (hi : sliceAt p.items c = []) (hdata : p.data.lookup (formatUint c) = some jobData)
    (hne : ∀ bs ∈ o.outer, bs ≠ []) :
    ∃ (q : RADOSBenchData F) (extra : List GoString), p.sort o c = some q ∧
      q.data = p.data ∧ q.IOPSData = p.IOPSData ∧ q.BWData = p.BWData ∧
      q.LatencyData = p.LatencyData ∧
      (sliceAt q.bss c).Perm o.outer ∧
      (sliceAt q.bss c).Pairwise (fun a b => (parseSize a).getD 0 ≤ (parseSize b).getD 0) ∧
      (sliceAt q.items c).Perm extra ∧ (sliceAt q.items c).Pairwise (fun a b => a ≤ b) ∧
      extra.Nodup ∧ ∀ x, x ∈ extra ↔ ∃ bs ∈ o.outer, x ∈ o.inner bs := by
  obtain ⟨extra, a1, a2, a3, a4, a5, a6, _, a8, a9⟩ := sortLoop_fold o c o.outer (p, ∅)
  simp only [hb, hi, List.nil_append, Finset.not_mem_empty, not_false_eq_true, and_true]
    at a5 a6 a9
  obtain ⟨sorted, hs, hperm, hpw⟩ := sortSort_BySize o.outer hne
  have hsorted : p.isSorted c = false := by simp [RADOSBenchData.isSorted, hb]
  obtain ⟨hsp, hsw⟩ := sortStrings_spec extra
  generalize hp1 : (o.outer.foldl (sortBsStep o c) (p, ∅)).1 = p1 at a1 a2 a3 a4 a5 a6
  have hbss : ∀ p2 : RADOSBenchData F,
      p2 = (if c ∈ p1.bss then { p1 with bss := p1.bss.insert c sorted } else p1) →
      sliceAt p2.bss c = sorted ∧ p2.items = p1.items ∧ p2.data = p1.data ∧
      p2.IOPSData = p1.IOPSData ∧ p2.BWData = p1.BWData ∧ p2.LatencyData = p1.LatencyData := by
    intro p2 h2
    by_cases hc : c ∈ p1.bss
    · rw [if_pos hc] at h2
      subst h2
      exact ⟨sliceAt_insert _ _ _, rfl, rfl, rfl, rfl, rfl⟩
    · rw [if_neg hc] at h2
      subst h2
      have h0 : o.outer = [] := by rw [← a5]; exact sliceAt_of_not_mem _ _ hc
      have hs0 : sorted = [] := by
        rw [h0] at hperm
        exact List.Perm.eq_nil hperm
      rw [a5, h0, hs0]
      exact ⟨rfl, rfl, rfl, rfl, rfl, rfl⟩
  obtain ⟨c1, c2, c3, c4, c5, c6⟩ := hbss _ rfl
  generalize hp2 : (if c ∈ p1.bss then { p1 with bss := p1.bss.insert c sorted } else p1) = p2
    at c1 c2 c3 c4 c5 c6
  have hitems : ∀ p3 : RADOSBenchData F,
      p3 = (if c ∈ p2.items then
        { p2 with items := p2.items.insert c (sortStrings (sliceAt p2.items c)) } else p2) →
      sliceAt p3.items c = sortStrings extra ∧ p3.bss = p2.bss ∧ p3.data = p2.data ∧
      p3.IOPSData = p2.IOPSData ∧ p3.BWData = p2.BWData ∧ p3.LatencyData = p2.LatencyData := by
    intro p3 h3
    by_cases hc : c ∈ p2.items
    · rw [if_pos hc] at h3
      subst h3
      refine ⟨?_, rfl, rfl, rfl, rfl, rfl⟩
      rw [sliceAt_insert, c2, a6]
    · rw [if_neg hc] at h3
      subst h3
      have h0 : extra = [] := by rw [← a6, ← c2]; exact sliceAt_of_not_mem _ _ hc
      refine ⟨?_, rfl, rfl, rfl, rfl, rfl⟩
      rw [c2, a6, h0]
      exact (List.Perm.eq_nil (by simpa [h0] using hsp)).symm
  obtain ⟨d1, d2, d3, d4, d5, d6⟩ := hitems _ rfl
  generalize hp3 : (if c ∈ p2.items then
    { p2 with items := p2.items.insert c (sortStrings (sliceAt p2.items c)) } else p2) = p3
    at d1 d2 d3 d4 d5 d6
  refine ⟨p3, extra, ?_, ?_, ?_, ?_, ?_, ?_, ?_, ?_, ?_, a8, a9⟩
  · unfold RADOSBenchData.sort
    rw [hsorted]
    simp only [Bool.false_eq_true, if_false, hdata, hp1, a5, hs, hp2, hp3]
  · rw [d3, c3, a1]
  · rw [d4, c4, a2]
  · rw [d5, c5, a3]
  · rw [d6, c6, a4]
  · rw [d2, c1]; exact hperm
  · rw [d2, c1]; exact hpw
  · rw [d1]; exact hsp
  · rw [d1]; exact hsw

/-! ### The loops of `prepareData` -/

theorem seriesAt_insert {T : Type} (m : GoMap (List T)) (k : GoString) (l : List T) :
    seriesAt (m.insert k l) k = l := by
  simp [seriesAt, Finmap.lookup_insert]

theorem seriesAt_insert_ne {T : Type} (m : GoMap (List T)) (k x : GoString) (l : List T)
    (h : x ≠ k) : seriesAt (m.insert k l) x = seriesAt m x := by
  simp [seriesAt, Finmap.lookup_insert_of_ne _ h]

theorem appendFold_lookup {T : Type} (g : GoString → T) (items : List GoString)
    (hnd : items.Nodup) (m : GoMap (List T)) (x : GoString) :
    (items.foldl (fun acc y => acc.insert y (seriesAt acc y ++ [g y])) m).lookup x =
      if x ∈ items then some (seriesAt m x ++ [g x]) else m.lookup x := by
  induction items generalizing m with
  | nil => simp
  | cons y ys ih =>
    simp only [List.foldl_cons]
    have hy := List.nodup_cons.1 hnd
    rw [ih hy.2]
    by_cases hxy : x = y
    · subst hxy
      simp [hy.1, Finmap.lookup_insert]
    · have hmem : x ∈ y :: ys ↔ x ∈ ys := by simp [hxy]
      rw [seriesAt_insert_ne _ _ _ _ hxy, Finmap.lookup_insert_of_ne _ hxy]
      by_cases hx : x ∈ ys
      · rw [if_pos hx, if_pos (hmem.2 hx)]
      · rw [if_neg hx, if_neg (fun h => hx (hmem.1 h))]

theorem appendFold_seriesAt {T : Type} (g : GoString → T) (items : List GoString)
    (hnd : items.Nodup) (m : GoMap (List T)) (x : GoString) :
    seriesAt (items.foldl (fun acc y => acc.insert y (seriesAt acc y ++ [g y])) m) x =
      if x ∈ items then seriesAt m x ++ [g x] else seriesAt m x := by
  have h := appendFold_lookup g items hnd m x
  unfold seriesAt at h ⊢
  rw [h]
  split <;> rfl

theorem gridFold_lookup {T : Type} (g : GoString → GoString → T) (items : List GoString)
    (hnd : items.Nodup) (axis : List GoString) (m : GoMap (List T)) (x : GoString) :
    (axis.foldl (fun acc b =>
        items.foldl (fun acc1 y => acc1.insert y (seriesAt acc1 y ++ [g b y])) acc) m).lookup x =
      if x ∈ items ∧ axis ≠ [] then some (seriesAt m x ++ axis.map (fun b => g b x))
      else m.lookup x := by
  induction axis generalizing m with
  | nil => simp
  | cons b bs ih =>
    simp only [List.foldl_cons]
    rw [ih, appendFold_seriesAt (g b) items hnd m x, appendFold_lookup (g b) items hnd m x]
    by_cases hx : x ∈ items
    · by_cases hbs : bs = []
      · subst hbs
        simp [hx]
      · simp [hx, hbs]
    · simp [hx]

theorem prepareItems_fold {F : Type} [Float64 F] (bsData : GoMap (Metrics F))
    (items : List GoString) (acc : Series F) :
    (items.foldl (prepareItemStep bsData) acc).iops =
        items.foldl (fun m y => m.insert y
          (seriesAt m y ++ [((bsData.lookup y).getD Metrics.zero).IOPS])) acc.iops ∧
    (items.foldl (prepareItemStep bsData) acc).bw =
        items.foldl (fun m y => m.insert y
          (seriesAt m y ++ [((bsData.lookup y).getD Metrics.zero).Bw])) acc.bw ∧
    (items.foldl (prepareItemStep bsData) acc).latency =
        items.foldl (fun m y => m.insert y
          (seriesAt m y ++ [Float64.mul1000 ((bsData.lookup y).getD Metrics.zero).Latency]))
          acc.latency := by
  induction items generalizing acc with
  | nil => exact ⟨rfl, rfl, rfl⟩
  | cons y ys ih =>
    simp only [List.foldl_cons]
    obtain ⟨h1, h2, h3⟩ := ih (prepareItemStep bsData acc y)
    exact ⟨h1, h2, h3⟩

theorem prepareGrid_fold {F : Type} [Float64 F] (jobData : GoMap (GoMap (Metrics F)))
    (items axis : List GoString) (acc : Series F) :
    (axis.foldl (prepareBsStep jobData items) acc).iops =
        axis.foldl (fun m b => items.foldl (fun m1 y => m1.insert y (seriesAt m1 y ++
          [((((jobData.lookup b).getD ∅).lookup y).getD Metrics.zero).IOPS])) m) acc.iops ∧
    (axis.foldl (prepareBsStep jobData items) acc).bw =
        axis.foldl (fun m b => items.foldl (fun m1 y => m1.insert y (seriesAt m1 y ++
          [((((jobData.lookup b).getD ∅).lookup y).getD Metrics.zero).Bw])) m) acc.bw ∧
    (axis.foldl (prepareBsStep jobData items) acc).latency =
        axis.foldl (fun m b => items.foldl (fun m1 y => m1.insert y (seriesAt m1 y ++
          [Float64.mul1000
            ((((jobData.lookup b).getD ∅).lookup y).getD Metrics.zero).Latency])) m)
          acc.latency := by
  induction axis generalizing acc with
  | nil => exact ⟨rfl, rfl, rfl⟩
  | cons b bs ih =>
    simp only [List.foldl_cons]
    obtain ⟨h1, h2, h3⟩ := ih (prepareBsStep jobData items acc b)
    obtain ⟨k1, k2, k3⟩ := prepareItems_fold ((jobData.lookup b).getD ∅) items acc
    rw [h1, h2, h3]
    unfold prepareBsStep
    simp only []
    rw [k1, k2, k3]
    exact ⟨rfl, rfl, rfl⟩

theorem cell_of_level {F : Type} (d : GoMap (GoMap (GoMap (Metrics F)))) (j : GoString)
    (jobData : GoMap (GoMap (Metrics F))) (h : d.lookup j = some jobData) (b x : GoString) :
    ((jobData.lookup b).getD ∅).lookup x = cell d j b x := by
  unfold cell
  rw [h, Option.some_bind]
  cases hb : jobData.lookup b with
  | none => simp
  | some bsData => simp

theorem valid_outer {F : Type} (o : RangeOrder) (jobData : GoMap (GoMap (Metrics F)))
    (h : o.Valid jobData) (bs : GoString) : bs ∈ o.outer ↔ bs ∈ jobData := by
  rw [← Finmap.mem_keys, ← h.1.2, List.mem_toFinset]

theorem valid_inner {F : Type} (o : RangeOrder) (jobData : GoMap (GoMap (Metrics F)))
    (h : o.Valid jobData) (bs : GoString) (hbs : bs ∈ jobData) (x : GoString) :
    x ∈ o.inner bs ↔ x ∈ (jobData.lookup bs).getD ∅ := by
  rw [← Finmap.mem_keys, ← (h.2 bs (Finmap.mem_keys.2 hbs)).2, List.mem_toFinset]

theorem prepareData_fresh {F : Type} [Float64 F] (o : RangeOrder) (p : RADOSBenchData F)
    (c : Nat) (jobData : GoMap (GoMap (Metrics F))) (hb : sliceAt p.bss c = [])
    (hi : sliceAt p.items c = [])
    (hs : p.IOPSData = none ∧ p.BWData = none ∧ p.LatencyData = none)
    (hdata : p.data.lookup (formatUint c) = some jobData) (hvalid : o.Valid jobData)
    (hne : ∀ bs ∈ jobData, bs ≠ []) :
    ∃ (q : RADOSBenchData F) (iops : GoMap (List Nat)) (bw lat : GoMap (List F)),
      p.prepareData o c = some q ∧ q.data = p.data ∧
      q.IOPSData = some iops ∧ q.BWData = some bw ∧ q.LatencyData = some lat ∧
      (sliceAt q.bss c).Perm o.outer ∧
      (sliceAt q.bss c).Pairwise (fun a b => (parseSize a).getD 0 ≤ (parseSize b).getD 0) ∧
      (sliceAt q.items c).Nodup ∧ (sliceAt q.items c).Pairwise (fun a b => a ≤ b) ∧
      (∀ x, x ∈ sliceAt q.items c ↔ ∃ bs ∈ jobData, x ∈ (jobData.lookup bs).getD ∅) ∧
      (∀ x, iops.lookup x =
        if x ∈ sliceAt q.items c ∧ sliceAt q.bss c ≠ [] then
          some ((sliceAt q.bss c).map
            (fun b => ((cell p.data (formatUint c) b x).getD Metrics.zero).IOPS))
        else none) ∧
      (∀ x, bw.lookup x =
        if x ∈ sliceAt q.items c ∧ sliceAt q.bss c ≠ [] then
          some ((sliceAt q.bss c).map
            (fun b => ((cell p.data (formatUint c) b x).getD Metrics.zero).Bw))
        else none) ∧
      (∀ x, lat.lookup x =
        if x ∈ sliceAt q.items c ∧ sliceAt q.bss c ≠ [] then
          some ((sliceAt q.bss c).map (fun b =>
            Float64.mul1000 ((cell p.data (formatUint c) b x).getD Metrics.zero).Latency))
        else none) := by
  obtain ⟨q, extra, hq, q1, _, _, _, q5, q6, q7, q8, q9, q10⟩ := sort_fresh o p c jobData hb hi
    hdata (fun bs hbs => hne bs ((valid_outer o jobData hvalid bs).1 hbs))
  have hnd : (sliceAt q.items c).Nodup := (List.Perm.nodup_iff q7).2 q9
  obtain ⟨g1, g2, g3⟩ := prepareGrid_fold jobData (sliceAt q.items c) (sliceAt q.bss c)
    ({ iops := ∅, bw := ∅, latency := ∅ } : Series F)
  refine ⟨{ q with
      IOPSData := some ((sliceAt q.bss c).foldl (prepareBsStep jobData (sliceAt q.items c))
        ({ iops := ∅, bw := ∅, latency := ∅ } : Series F)).iops,
      BWData := some ((sliceAt q.bss c).foldl (prepareBsStep jobData (sliceAt q.items c))
        ({ iops := ∅, bw := ∅, latency := ∅ } : Series F)).bw,
      LatencyData := some ((sliceAt q.bss c).foldl
        (prepareBsStep jobData (sliceAt q.items c))
        ({ iops := ∅, bw := ∅, latency := ∅ } : Series F)).latency },
    _, _, _, ?_, ?_, rfl, rfl, rfl, ?_, ?_, ?_, ?_, ?_, ?_, ?_, ?_⟩
  · unfold RADOSBenchData.prepareData
    simp only [hs.1, hs.2.1, hs.2.2, Option.isSome_none, Bool.false_eq_true, or_self, if_false,
      hdata, hq]
  · exact q1
  · exact q5
  · exact q6
  · exact hnd
  · exact q8
  · intro x
    rw [List.Perm.mem_iff q7, q10 x]
    constructor
    · rintro ⟨bs, hbs, hx⟩
      have hbs2 := (valid_outer o jobData hvalid bs).1 hbs
      exact ⟨bs, hbs2, (valid_inner o jobData hvalid bs hbs2 x).1 hx⟩
    · rintro ⟨bs, hbs, hx⟩
      exact ⟨bs, (valid_outer o jobData hvalid bs).2 hbs,
        (valid_inner o jobData hvalid bs hbs x).2 hx⟩
  · intro x
    simp only []
    rw [g1, gridFold_lookup _ _ hnd]
    simp only [seriesAt, Finmap.lookup_empty, Option.getD_none, List.nil_append,
      cell_of_level p.data _ jobData hdata]
  · intro x
    simp only []
    rw [g2, gridFold_lookup _ _ hnd]
    simp only [seriesAt, Finmap.lookup_empty, Option.getD_none, List.nil_append,
      cell_of_level p.data _ jobData hdata]
  · intro x
    simp only []
    rw [g3, gridFold_lookup _ _ hnd]
    simp only [seriesAt, Finmap.lookup_empty, Option.getD_none, List.nil_append,
      cell_of_level p.data _ jobData hdata]

/-! ### The store that `parserJsonContent` returns -/

theorem foldl_parserStep_frame {F : Type} [Float64 F] (rbs : RADOSBenchOutputs)
    (p : RADOSBenchData F) :
    (rbs.foldl parserStep p).bss = p.bss ∧ (rbs.foldl parserStep p).items = p.items ∧
    (rbs.foldl parserStep p).IOPSData = p.IOPSData ∧ (rbs.foldl parserStep p).BWData = p.BWData ∧
    (rbs.foldl parserStep p).LatencyData = p.LatencyData := by
  induction rbs generalizing p with
  | nil => exact ⟨rfl, rfl, rfl, rfl, rfl⟩
  | cons e es ih => exact ih (parserStep p e)

theorem parserJsonContent_fresh {F : Type} [Float64 F] (rbs : RADOSBenchOutputs) (c : Nat) :
    sliceAt (parserJsonContent rbs : RADOSBenchData F).bss c = [] ∧
    sliceAt (parserJsonContent rbs : RADOSBenchData F).items c = [] ∧
    (parserJsonContent rbs : RADOSBenchData F).IOPSData = none ∧
    (parserJsonContent rbs : RADOSBenchData F).BWData = none ∧
    (parserJsonContent rbs : RADOSBenchData F).LatencyData = none := by
  obtain ⟨h1, h2, h3, h4, h5⟩ := foldl_parserStep_frame (F := F) rbs
    { data := ∅, bss := ∅, items := ∅, IOPSData := none, BWData := none, LatencyData := none }
  unfold parserJsonContent
  rw [h1, h2, h3, h4, h5]
  exact ⟨rfl, rfl, rfl, rfl, rfl⟩

theorem foldl_parserStep_levels {F : Type} [Float64 F] (rbs : RADOSBenchOutputs)
    (p : RADOSBenchData F)
    (h : ∀ j jobData, p.data.lookup j = some jobData → ∃ bs, bs ∈ jobData) :
    ∀ j jobData, (rbs.foldl parserStep p).data.lookup j = some jobData → ∃ bs, bs ∈ jobData := by
  induction rbs generalizing p with
  | nil => exact h
  | cons e es ih =>
    apply ih (parserStep p e)
    intro j jobData hj
    unfold parserStep at hj
    simp only [] at hj
    by_cases hje : j = (splitString e.1).2.1
    · subst hje
      rw [Finmap.lookup_insert] at hj
      cases hj
      exact ⟨(splitString e.1).2.2, Finmap.mem_insert.2 (Or.inl rfl)⟩
    · rw [Finmap.lookup_insert_of_ne _ hje] at hj
      exact h j jobData hj

theorem parserJsonContent_levels {F : Type} [Float64 F] (rbs : RADOSBenchOutputs)
    (j : GoString) (jobData : GoMap (GoMap (Metrics F)))
    (h : (parserJsonContent rbs : RADOSBenchData F).data.lookup j = some jobData) :
    ∃ bs, bs ∈ jobData := by
  unfold parserJsonContent at h
  exact foldl_parserStep_levels rbs _ (fun j jd hj => by simp at hj) j jobData h

theorem sorted_axis_unique (l t : List GoString) (hperm : l.Perm t) (hnd : t.Nodup)
    (hl : l.Pairwise (fun a b => (parseSize a).getD 0 ≤ (parseSize b).getD 0))
    (ht : t.Pairwise (fun a b => (parseSize a).getD 0 < (parseSize b).getD 0)) : l = t := by
  have hinj : ∀ a ∈ t, ∀ b ∈ t, (parseSize a).getD 0 = (parseSize b).getD 0 → a = b := by
    intro a ha b hb hab
    by_contra hne
    rcases List.Pairwise.forall_of_forall
      (R := fun a b => (parseSize a).getD 0 < (parseSize b).getD 0 ∨
        (parseSize b).getD 0 < (parseSize a).getD 0 ∨ a = b)
      (fun _ _ hxy => by tauto) (fun _ _ => Or.inr (Or.inr rfl))
      (ht.imp (fun h => Or.inl h)) ha hb with h | h | h
    · omega
    · omega
    · exact hne h
  have hlnd : l.Nodup := (List.Perm.nodup_iff hperm).2 hnd
  have hl2 : l.Pairwise (fun a b => (parseSize a).getD 0 < (parseSize b).getD 0 ∨ a = b) := by
    have := List.Pairwise.and hl hlnd
    refine List.Pairwise.imp_of_mem ?_ this
    intro a b ha hb hab
    left
    rcases lt_or_eq_of_le hab.1 with h | h
    · exact h
    · exact absurd (hinj a (hperm.subset ha) b (hperm.subset hb) h) hab.2
  have ht2 : t.Pairwise (fun a b => (parseSize a).getD 0 < (parseSize b).getD 0 ∨ a = b) :=
    ht.imp (fun h => Or.inl h)
  have hanti : ∀ a b : GoString,
      ((parseSize a).getD 0 < (parseSize b).getD 0 ∨ a = b) →
      ((parseSize b).getD 0 < (parseSize a).getD 0 ∨ b = a) → a = b := by
    intro a b h1 h2
    rcases h1 with h1 | h1
    · rcases h2 with h2 | h2
      · omega
      · exact h2.symm
    · exact h1
  haveI : IsAntisymm GoString (fun a b =>
      (parseSize a).getD 0 < (parseSize b).getD 0 ∨ a = b) := ⟨hanti⟩
  exact List.eq_of_perm_of_sorted hperm hl2 ht2

/-! ### Axis and series of a store without an empty block-size label -/

theorem sizes_sorted_of_getD (l : List GoString) (hne : ∀ x ∈ l, x ≠ [])
    (h : l.Pairwise (fun a b => (parseSize a).getD 0 ≤ (parseSize b).getD 0)) :
    l.Pairwise (fun a b => ∃ x y, parseSize a = some x ∧ parseSize b = some y ∧ x ≤ y) := by
  refine List.Pairwise.imp_of_mem ?_ h
  intro a b ha hb hab
  obtain ⟨x, hx⟩ := parseSize_isSome a (hne a ha)
  obtain ⟨y, hy⟩ := parseSize_isSome b (hne b hb)
  rw [hx, hy] at hab
  exact ⟨x, y, hx, hy, hab⟩

/-- X1 (the content of claim C1 away from the panic). For every store built by
`parserJsonContent`, every level `c` it holds and every order in which `range` may walk
the maps: when no block-size label under the level is empty, `sort(c)` returns, leaves
`data` alone, and `bss[c]` holds every label of `data[c]` exactly once, ascending by
`parseSize`; four labels `64k`, `4k`, `1m`, `512` give the axis `512, 4k, 64k, 1m`. -/
theorem sort_axis_sorted_permutation {F : Type} [Float64 F] (rbs : RADOSBenchOutputs)
    (c : Nat) (o : RangeOrder) (jobData : GoMap (GoMap (Metrics F)))
    (hdata : (parserJsonContent rbs : RADOSBenchData F).data.lookup (formatUint c) =
      some jobData)
    (hvalid : o.Valid jobData) (hne : ∀ bs ∈ jobData, bs ≠ []) :
    ∃ q : RADOSBenchData F,
      (parserJsonContent rbs : RADOSBenchData F).sort o c = some q ∧
      q.data = (parserJsonContent rbs : RADOSBenchData F).data ∧
      (sliceAt q.bss c).Nodup ∧ (∀ bs, bs ∈ sliceAt q.bss c ↔ bs ∈ jobData) ∧
      (sliceAt q.bss c).Pairwise
        (fun a b => ∃ x y, parseSize a = some x ∧ parseSize b = some y ∧ x ≤ y) ∧
      (jobData.keys = {str "64k", str "4k", str "1m", str "512"} →
        sliceAt q.bss c = [str "512", str "4k", str "64k", str "1m"]) := by
  obtain ⟨f1, f2, _, _, _⟩ := parserJsonContent_fresh (F := F) rbs c
  obtain ⟨q, extra, hq, q1, _, _, _, q5, q6, _, _, _, _⟩ := sort_fresh o _ c jobData f1 f2
    hdata (fun bs hbs => hne bs ((valid_outer o jobData hvalid bs).1 hbs))
  have hmem : ∀ bs, bs ∈ sliceAt q.bss c ↔ bs ∈ jobData := fun bs => by
    rw [List.Perm.mem_iff q5, valid_outer o jobData hvalid bs]
  have hnd : (sliceAt q.bss c).Nodup := (List.Perm.nodup_iff q5).2 hvalid.1.1
  refine ⟨q, hq, q1, hnd, hmem, ?_, ?_⟩
  · exact sizes_sorted_of_getD _ (fun x hx => hne x ((hmem x).1 hx)) q6
  · intro hkeys
    have hfin : (sliceAt q.bss c).toFinset =
        [str "512", str "4k", str "64k", str "1m"].toFinset := by
      ext x
      rw [List.mem_toFinset, hmem x, ← Finmap.mem_keys, hkeys]
      simp only [List.toFinset_cons, List.toFinset_nil, Finset.mem_insert,
        Finset.mem_singleton, insert_emptyc_eq]
      tauto
    have hperm : (sliceAt q.bss c).Perm [str "512", str "4k", str "64k", str "1m"] :=
      List.perm_of_nodup_nodup_toFinset_eq hnd (by decide) hfin
    exact sorted_axis_unique _ _ hperm (by decide) q6 (by decide)

/-- X1 has an input: the four labels of the specification, walked in another order. -/
theorem sort_axis_sorted_permutation_witness :
    ∃ q : RADOSBenchData SymFloat,
      (parserJsonContent fourLabelsInput : RADOSBenchData SymFloat).sort fourLabelsOrder 1 =
        some q ∧
      sliceAt q.bss 1 = [str "512", str "4k", str "64k", str "1m"] := by
  obtain ⟨q, h1, _, _, _, _, h6⟩ := sort_axis_sorted_permutation (F := SymFloat)
    fourLabelsInput 1 fourLabelsOrder
    (levelOf (parserJsonContent fourLabelsInput : RADOSBenchData SymFloat) 1)
    (by decide) (by decide) (by decide)
  exact ⟨q, h1, h6 (by decide)⟩

theorem keys_of_lookup {T : Type} (m : GoMap (List T)) (items : List GoString)
    (v : GoString → List T)
    (h : ∀ x, m.lookup x = if x ∈ items then some (v x) else none) :
    m.keys = items.toFinset := by
  ext x
  rw [Finmap.mem_keys, List.mem_toFinset, Finmap.mem_iff, h x]
  by_cases hx : x ∈ items <;> simp [hx]

/-- X2 (the content of claim C2 away from the panic). For every store built by
`parserJsonContent`, every level `c` it holds and every order in which `range` may walk
the maps: when no block-size label under the level is empty, `prepareData(c)` returns,
the three series maps have exactly the names of `items[c]` as keys, and every series is
as long as the axis `bss[c]`. -/
theorem prepareData_alignment {F : Type} [Float64 F] (rbs : RADOSBenchOutputs)
    (c : Nat) (o : RangeOrder) (jobData : GoMap (GoMap (Metrics F)))
    (hdata : (parserJsonContent rbs : RADOSBenchData F).data.lookup (formatUint c) =
      some jobData)
    (hvalid : o.Valid jobData) (hne : ∀ bs ∈ jobData, bs ≠ []) :
    ∃ (q : RADOSBenchData F) (iops : GoMap (List Nat)) (bw lat : GoMap (List F)),
      (parserJsonContent rbs : RADOSBenchData F).prepareData o c = some q ∧
      q.IOPSData = some iops ∧ q.BWData = some bw ∧ q.LatencyData = some lat ∧
      iops.keys = (sliceAt q.items c).toFinset ∧ bw.keys = (sliceAt q.items c).toFinset ∧
      lat.keys = (sliceAt q.items c).toFinset ∧
      ∀ name ∈ sliceAt q.items c,
        (seriesAt iops name).length = (sliceAt q.bss c).length ∧
        (seriesAt bw name).length = (sliceAt q.bss c).length ∧
        (seriesAt lat name).length = (sliceAt q.bss c).length := by
  obtain ⟨f1, f2, f3, f4, f5⟩ := parserJsonContent_fresh (F := F) rbs c
  obtain ⟨q, iops, bw, lat, hq, _, h1, h2, h3, h4, _, _, _, _, k1, k2, k3⟩ :=
    prepareData_fresh o _ c jobData f1 f2 ⟨f3, f4, f5⟩ hdata hvalid hne
  obtain ⟨b0, hb0⟩ := parserJsonContent_levels rbs _ jobData hdata
  have haxis : sliceAt q.bss c ≠ [] := by
    intro h0
    have : b0 ∈ sliceAt q.bss c := (List.Perm.mem_iff h4).2 ((valid_outer o jobData hvalid b0).2 hb0)
    rw [h0] at this
    exact absurd this (List.not_mem_nil _)
  simp only [haxis, ne_eq, not_false_eq_true, and_true] at k1 k2 k3
  refine ⟨q, iops, bw, lat, hq, h1, h2, h3, keys_of_lookup _ _ _ k1, keys_of_lookup _ _ _ k2,
    keys_of_lookup _ _ _ k3, ?_⟩
  intro name hname
  simp only [seriesAt, k1 name, k2 name, k3 name, hname, if_true, Option.getD_some,
    List.length_map, and_self]

/-- X2 has an input: the scenario of the specification. -/
theorem prepareData_alignment_witness :
    ∃ (q : RADOSBenchData SymFloat) (iops : GoMap (List Nat)) (bw lat : GoMap (List SymFloat)),
      (parserJsonContent scenarioInput : RADOSBenchData SymFloat).prepareData scenarioOrder 1 =
        some q ∧
      q.IOPSData = some iops ∧ q.BWData = some bw ∧ q.LatencyData = some lat ∧
      iops.keys = (sliceAt q.items 1).toFinset ∧ bw.keys = (sliceAt q.items 1).toFinset ∧
      lat.keys = (sliceAt q.items 1).toFinset ∧
      ∀ name ∈ sliceAt q.items 1,
        (seriesAt iops name).length = (sliceAt q.bss 1).length ∧
        (seriesAt bw name).length = (sliceAt q.bss 1).length ∧
        (seriesAt lat name).length = (sliceAt q.bss 1).length :=
  prepareData_alignment (F := SymFloat) scenarioInput 1 scenarioOrder
    (levelOf (parserJsonContent scenarioInput : RADOSBenchData SymFloat) 1)
    (by decide) (by decide) (by decide)

/-- X3 (the content of claim C3 away from the panic). For every store built by
`parserJsonContent`, every level `c` it holds and every order in which `range` may walk
the maps: when no block-size label under the level is empty, `prepareData(c)` returns,
and for every name of `items[c]` and every position `i` of the axis with label `b`: if
`data[c][b]` holds the name with metrics `m`, the three series hold `m.IOPS`, `m.Bw` and
`m.Latency * 1000` at `i`; if it does not, they hold the zero values at `i`. -/
theorem prepareData_positional {F : Type} [Float64 F] (rbs : RADOSBenchOutputs)
    (c : Nat) (o : RangeOrder) (jobData : GoMap (GoMap (Metrics F)))
    (hdata : (parserJsonContent rbs : RADOSBenchData F).data.lookup (formatUint c) =
      some jobData)
    (hvalid : o.Valid jobData) (hne : ∀ bs ∈ jobData, bs ≠ []) :
    ∃ (q : RADOSBenchData F) (iops : GoMap (List Nat)) (bw lat : GoMap (List F)),
      (parserJsonContent rbs : RADOSBenchData F).prepareData o c = some q ∧
      q.IOPSData = some iops ∧ q.BWData = some bw ∧ q.LatencyData = some lat ∧
      ∀ name ∈ sliceAt q.items c, ∀ (i : Nat) (b : GoString), (sliceAt q.bss c)[i]? = some b →
        (∀ m, cell (parserJsonContent rbs : RADOSBenchData F).data (formatUint c) b name =
            some m →
          (seriesAt iops name)[i]? = some m.IOPS ∧ (seriesAt bw name)[i]? = some m.Bw ∧
          (seriesAt lat name)[i]? = some (Float64.mul1000 m.Latency)) ∧
        (cell (parserJsonContent rbs : RADOSBenchData F).data (formatUint c) b name = none →
          (seriesAt iops name)[i]? = some 0 ∧ (seriesAt bw name)[i]? = some Float64.zero ∧
          (seriesAt lat name)[i]? = some Float64.zero) := by
  obtain ⟨f1, f2, f3, f4, f5⟩ := parserJsonContent_fresh (F := F) rbs c
  obtain ⟨q, iops, bw, lat, hq, _, h1, h2, h3, _, _, _, _, _, k1, k2, k3⟩ :=
    prepareData_fresh o _ c jobData f1 f2 ⟨f3, f4, f5⟩ hdata hvalid hne
  refine ⟨q, iops, bw, lat, hq, h1, h2, h3, ?_⟩
  intro name hname i b hb
  have haxis : sliceAt q.bss c ≠ [] := by
    intro h0
    rw [h0] at hb
    simp at hb
  simp only [haxis, ne_eq, not_false_eq_true, and_true, hname, if_true] at k1 k2 k3
  have e1 := k1 name
  have e2 := k2 name
  have e3 := k3 name
  simp only [hname, if_true] at e1 e2 e3
  constructor
  · intro m hm
    simp only [seriesAt, e1, e2, e3, Option.getD_some, List.getElem?_map, hb, Option.map_some',
      hm, and_self]
  · intro hm
    simp only [seriesAt, e1, e2, e3, Option.getD_some, List.getElem?_map, hb, Option.map_some',
      hm, Option.getD_none, Metrics.zero, Float64.mul1000_zero, and_self]

/-- X3 has an input: name `A` has no data at `64k`, so its series hold zeros there. -/
theorem prepareData_positional_witness :
    ∃ (q : RADOSBenchData SymFloat) (iops : GoMap (List Nat)) (bw lat : GoMap (List SymFloat)),
      (parserJsonContent zeroFillInput : RADOSBenchData SymFloat).prepareData zeroFillOrder 1 =
        some q ∧
      q.IOPSData = some iops ∧ q.BWData = some bw ∧ q.LatencyData = some lat ∧
      ∀ name ∈ sliceAt q.items 1, ∀ (i : Nat) (b : GoString), (sliceAt q.bss 1)[i]? = some b →
        (∀ m, cell (parserJsonContent zeroFillInput : RADOSBenchData SymFloat).data
            (formatUint 1) b name = some m →
          (seriesAt iops name)[i]? = some m.IOPS ∧ (seriesAt bw name)[i]? = some m.Bw ∧
          (seriesAt lat name)[i]? = some (Float64.mul1000 m.Latency)) ∧
        (cell (parserJsonContent zeroFillInput : RADOSBenchData SymFloat).data
            (formatUint 1) b name = none →
          (seriesAt iops name)[i]? = some 0 ∧ (seriesAt bw name)[i]? = some Float64.zero ∧
          (seriesAt lat name)[i]? = some Float64.zero) :=
  prepareData_positional (F := SymFloat) zeroFillInput 1 zeroFillOrder
    (levelOf (parserJsonContent zeroFillInput : RADOSBenchData SymFloat) 1)
    (by decide) (by decide) (by decide)

/-! ### The empty block-size label -/

/-- Claim C1 fails on the files `a_1_.json` and `a_1_4k.json`: level 1 is present with the
labels `""` and `"4k"`, and whichever of the two `range` meets first, `sort(1)` panics
(`sort.Sort` calls `Less`, and `parseSize("")` indexes `s[-1]`), so no axis is produced. -/
theorem sort_panics_on_empty_label :
    (parserJsonContent emptyLabelInput : RADOSBenchData SymFloat).data.lookup (formatUint 1) =
      some emptyLabelJobData ∧
    emptyLabelJobData.keys = {str "", str "4k"} ∧
    emptyFirst.Valid emptyLabelJobData ∧ emptyLast.Valid emptyLabelJobData ∧
    (parserJsonContent emptyLabelInput : RADOSBenchData SymFloat).sort emptyFirst 1 = none ∧
    (parserJsonContent emptyLabelInput : RADOSBenchData SymFloat).sort emptyLast 1 = none := by
  decide

/-- Claim C2 fails on the files `a_1_.json` and `a_1_4k.json`: `prepareData(1)` on the
fresh store panics inside `sort(1)`, so no series map is produced. -/
theorem prepareData_panics_on_empty_label :
    (parserJsonContent emptyLabelInput : RADOSBenchData SymFloat).IOPSData = none ∧
    emptyFirst.Valid emptyLabelJobData ∧ emptyLast.Valid emptyLabelJobData ∧
    (parserJsonContent emptyLabelInput : RADOSBenchData SymFloat).prepareData emptyFirst 1 =
      none ∧
    (parserJsonContent emptyLabelInput : RADOSBenchData SymFloat).prepareData emptyLast 1 =
      none := by
  decide

/-- Claim C3 fails on the files `a_1_.json` and `b_1_4k.json`: level 1 is present, and
`prepareData(1)` on the fresh store panics before any series value is written. -/
theorem prepareData_panics_two_names :
    twoNamesOrder.Valid
      (levelOf (parserJsonContent emptyLabelTwoNames : RADOSBenchData SymFloat) 1) ∧
    cell (parserJsonContent emptyLabelTwoNames : RADOSBenchData SymFloat).data (str "1")
      (str "") (str "a") = some (sampleRecord "3" "1.0" "0.1").metrics ∧
    (parserJsonContent emptyLabelTwoNames : RADOSBenchData SymFloat).prepareData
      twoNamesOrder 1 = none := by
  decide

/-- X4. The end-to-end scenario of the specification: the records `write_1_4k`
(100, 10.0, 0.005) and `write_1_64k` (50, 20.0, 0.010) give at level 1 the axis
`4k, 64k`, the names `write`, the rates `100, 50`, the bandwidths as parsed and the
latencies as parsed and multiplied by 1000. -/
theorem prepareData_scenario :
    scenarioOrder.Valid (levelOf (parserJsonContent scenarioInput : RADOSBenchData SymFloat) 1) ∧
    ((parserJsonContent scenarioInput : RADOSBenchData SymFloat).prepareData scenarioOrder
      1).map (fun q => sliceAt q.bss 1) = some [str "4k", str "64k"] ∧
    ((parserJsonContent scenarioInput : RADOSBenchData SymFloat).prepareData scenarioOrder
      1).map (fun q => sliceAt q.items 1) = some [str "write"] ∧
    ((parserJsonContent scenarioInput : RADOSBenchData SymFloat).prepareData scenarioOrder
      1).map (fun q => q.IOPSData.map (fun m => seriesAt m (str "write"))) =
      some (some [100, 50]) ∧
    ((parserJsonContent scenarioInput : RADOSBenchData SymFloat).prepareData scenarioOrder
      1).map (fun q => q.BWData.map (fun m => seriesAt m (str "write"))) =
      some (some [SymFloat.parsed (str "10.0"), SymFloat.parsed (str "20.0")]) ∧
    ((parserJsonContent scenarioInput : RADOSBenchData SymFloat).prepareData scenarioOrder
      1).map (fun q => q.LatencyData.map (fun m => seriesAt m (str "write"))) =
      some (some [SymFloat.scaled (SymFloat.parsed (str "0.005")),
        SymFloat.scaled (SymFloat.parsed (str "0.010"))]) := by
  decide

/-- X5. On every non-empty string `parseSize` returns a value: the empty string is the
only input on which it panics. -/
theorem parseSize_returns_on_nonempty (s : GoString) (h : s ≠ []) :
    ∃ v, parseSize s = some v :=
  parseSize_isSome s h

/-- X5 has an input. -/
theorem parseSize_returns_on_nonempty_witness : ∃ v, parseSize (str "x") = some v :=
  parseSize_returns_on_nonempty (str "x") (by decide)

/-! ### Case of the unit, invalid identifiers, information kept by `splitString` -/

/-- Claim C11. Unit matching is case-insensitive: for every string `p`, a well-formed
magnitude or not, `parseSize` returns the same for `p` followed by `K` as for `p`
followed by `k`, and likewise for `M`/`m` and `G`/`g`; so `parseSize("4K") =
parseSize("4k")`. -/
theorem parseSize_unit_case_insensitive (p : GoString) :
    parseSize (p ++ str "K") = parseSize (p ++ str "k") ∧
    parseSize (p ++ str "M") = parseSize (p ++ str "m") ∧
    parseSize (p ++ str "G") = parseSize (p ++ str "g") ∧
    parseSize (str "4K") = parseSize (str "4k") := by
  have hK : str "K" = [75] := by decide
  have hk : str "k" = [107] := by decide
  have hM : str "M" = [77] := by decide
  have hm : str "m" = [109] := by decide
  have hG : str "G" = [71] := by decide
  have hg : str "g" = [103] := by decide
  rw [hK, hk, hM, hm, hG, hg]
  refine ⟨?_, ?_, ?_, by decide⟩ <;> simp only [parseSize_append] <;> rfl

/-- Claim C12. An identifier that `strings.Split` cuts at `'_'` into fewer than 3
segments gets the invalid key: `splitString` returns `("", "", "")`. That covers the
empty string and names with no or one underscore; `a_b` gives `("", "", "")`. -/
theorem splitString_too_few_segments (name : GoString)
    (h : (stringsSplit name underscore).length < 3) :
    splitString name = (str "", str "", str "") ∧
    splitString (str "a_b") = (str "", str "", str "") ∧
    splitString (str "") = (str "", str "", str "") ∧
    splitString (str "ab") = (str "", str "", str "") := by
  refine ⟨?_, by decide, by decide, by decide⟩
  unfold splitString
  simp only [h, if_true]
  decide

/-- Claim C12 has an input: the identifier `a_b`, of two segments. -/
theorem splitString_too_few_segments_witness :
    splitString (str "a_b") = (str "", str "", str "") :=
  (splitString_too_few_segments (str "a_b") (by decide)).1

theorem splitOn_segment_free (sep : Byte) (s : GoString) :
    ∀ seg ∈ s.splitOn sep, sep ∉ seg := by
  induction s with
  | nil =>
    intro seg hseg
    have : seg = [] := by simpa [List.splitOn, List.splitOnP_nil] using hseg
    rw [this]
    exact List.not_mem_nil _
  | cons x xs ih =>
    intro seg hseg
    rw [List.splitOn, List.splitOnP_cons] at hseg
    by_cases hx : x = sep
    · simp only [hx, beq_self_eq_true, if_true, List.mem_cons] at hseg
      rcases hseg with h | h
      · rw [h]; exact List.not_mem_nil _
      · exact ih seg h
    · have hne : (x == sep) = false := by simpa using hx
      simp only [hne, Bool.false_eq_true, if_false] at hseg
      have hnn := List.splitOnP_ne_nil (fun y => y == sep) xs
      cases hsp : List.splitOnP (fun y => y == sep) xs with
      | nil => exact absurd hsp hnn
      | cons y ys =>
        rw [hsp] at hseg
        simp only [List.modifyHead_cons, List.mem_cons] at hseg
        have ih2 : ∀ seg ∈ y :: ys, sep ∉ seg := by
          intro t ht
          apply ih t
          rw [List.splitOn, hsp]
          exact ht
        rcases hseg with h | h
        · rw [h]
          intro hmem
          rcases List.mem_cons.1 hmem with h1 | h1
          · exact hx h1.symm
          · exact ih2 y (List.mem_cons_self _ _) h1
        · exact ih2 seg (List.mem_cons_of_mem _ h)

/-- Claim C20. `splitString` loses nothing of an identifier with at least 3 segments:
with `splitString(s) = (n, jobs, bs)`, neither `jobs` nor `bs` holds a `'_'`, and
`n ++ "_" ++ jobs ++ "_" ++ bs` is `s` again; so two identifiers with at least 3 segments
and the same triple are the same identifier. -/
theorem splitString_lossless (s : GoString) (n jobs bs : GoString)
    (hv : 3 ≤ (stringsSplit s underscore).length) (hs : splitString s = (n, jobs, bs)) :
    underscore ∉ jobs ∧ underscore ∉ bs ∧ n ++ str "_" ++ jobs ++ str "_" ++ bs = s ∧
    ∀ t : GoString, 3 ≤ (stringsSplit t underscore).length → splitString t = (n, jobs, bs) →
      t = s := by
  obtain ⟨front, j, b, hp, hsp⟩ := splitString_parts s hv
  rw [hs] at hsp
  have hj : jobs = j := by injection hsp with _ h2; injection h2
  have hb : bs = b := by injection hsp with _ h2; injection h2
  have hvs : validId s = true := by simpa [validId] using hv
  have hfree := splitOn_segment_free underscore s
  unfold stringsSplit at hp
  rw [hp] at hfree
  have hjoin := splitString_join s hvs
  rw [hs] at hjoin
  refine ⟨?_, ?_, ?_, ?_⟩
  · rw [hj]; exact hfree j (by simp)
  · rw [hb]; exact hfree b (by simp)
  · have : str "_" = [underscore] := by decide
    rw [this]
    exact hjoin.symm
  · intro t ht hst
    have hvt : validId t = true := by simpa [validId] using ht
    exact splitString_injective t s hvt hvs (by rw [hst, hs])

/-- Claim C20 has an input: the identifier `seq_write_8_4k`. -/
theorem splitString_lossless_witness :
    underscore ∉ str "8" ∧ underscore ∉ str "4k" ∧
    str "seq_write" ++ str "_" ++ str "8" ++ str "_" ++ str "4k" = str "seq_write_8_4k" ∧
    ∀ t : GoString, 3 ≤ (stringsSplit t underscore).length →
      splitString t = (str "seq_write", str "8", str "4k") → t = str "seq_write_8_4k" :=
  splitString_lossless (str "seq_write_8_4k") (str "seq_write") (str "8") (str "4k")
    (by decide) (by decide)

/-! ### Memoization and absent levels -/

theorem prepareData_series_set {F : Type} [Float64 F] (o : RangeOrder) (p q : RADOSBenchData F)
    (c : Nat) (h : p.prepareData o c = some q) :
    q = p ∨ (q.IOPSData.isSome = true ∧ q.BWData.isSome = true ∧ q.LatencyData.isSome = true ∧
      p.IOPSData = none ∧ p.BWData = none ∧ p.LatencyData = none ∧
      ∃ q1, p.sort o c = some q1 ∧ q.data = q1.data ∧ q.bss = q1.bss ∧ q.items = q1.items ∧
        (p.data.lookup (formatUint c)).isSome = true) := by
  unfold RADOSBenchData.prepareData at h
  split at h
  · left; exact (Option.some.inj h).symm
  · rename_i hguard
    split at h
    · left; exact (Option.some.inj h).symm
    · rename_i jobData hdata
      split at h
      · exact absurd h (by simp)
      · rename_i q1 hq1
        right
        have hq := (Option.some.inj h).symm
        subst hq
        have h1 : p.IOPSData = none := by
          cases hx : p.IOPSData with
          | none => rfl
          | some v => exact absurd (Or.inl (by simp [hx])) hguard
        have h2 : p.BWData = none := by
          cases hx : p.BWData with
          | none => rfl
          | some v => exact absurd (Or.inr (Or.inl (by simp [hx]))) hguard
        have h3 : p.LatencyData = none := by
          cases hx : p.LatencyData with
          | none => rfl
          | some v => exact absurd (Or.inr (Or.inr (by simp [hx]))) hguard
        exact ⟨rfl, rfl, rfl, h1, h2, h3, q1, hq1, rfl, rfl, rfl, by simp [hdata]⟩

theorem prepareData_of_series {F : Type} [Float64 F] (o : RangeOrder) (p : RADOSBenchData F)
    (c : Nat) (h : p.IOPSData.isSome = true ∨ p.BWData.isSome = true ∨ p.LatencyData.isSome = true) :
    p.prepareData o c = some p := by
  unfold RADOSBenchData.prepareData
  rw [if_pos h]

/-- Claim C15. Flattening is idempotent: for every state and every level `c`, when a
call `prepareData(c)` has returned, a second call returns too and leaves the whole state
as the first call left it (series maps, `bss`, `items`, `data`), whatever order `range`
takes; so two calls in a row are one call, a panic of the first one included. -/
theorem prepareData_idempotent {F : Type} [Float64 F] (o o2 : RangeOrder)
    (p : RADOSBenchData F) (c : Nat) :
    (∀ q, p.prepareData o c = some q → q.prepareData o2 c = some q) ∧
    (p.prepareData o c).bind (fun q => q.prepareData o2 c) = p.prepareData o c := by
  have h1 : ∀ q, p.prepareData o c = some q → q.prepareData o2 c = some q := by
    intro q hq
    have hq0 := hq
    unfold RADOSBenchData.prepareData at hq
    split at hq
    · rename_i hguard
      have := (Option.some.inj hq).symm
      subst this
      exact prepareData_of_series o2 _ c hguard
    · rename_i hguard
      split at hq
      · rename_i hdata
        have := (Option.some.inj hq).symm
        subst this
        unfold RADOSBenchData.prepareData
        rw [if_neg hguard, hdata]
      · split at hq
        · exact absurd hq (by simp)
        · have := (Option.some.inj hq).symm
          subst this
          exact prepareData_of_series o2 _ c (Or.inl rfl)
  refine ⟨h1, ?_⟩
  cases hq : p.prepareData o c with
  | none => rfl
  | some q => exact h1 q hq

/-- Claim C15 has an input: the scenario of the specification, flattened twice. -/
theorem prepareData_idempotent_witness :
    scenarioFlattened.prepareData scenarioOrder 1 = some scenarioFlattened :=
  (prepareData_idempotent scenarioOrder scenarioOrder
    (parserJsonContent scenarioInput : RADOSBenchData SymFloat) 1).1 scenarioFlattened
    (by decide)

theorem sort_of_absent {F : Type} (o : RangeOrder) (p : RADOSBenchData F) (c : Nat)
    (h : p.data.lookup (formatUint c) = none) : p.sort o c = some p := by
  unfold RADOSBenchData.sort
  split
  · rfl
  · rw [h]

theorem prepareData_of_absent {F : Type} [Float64 F] (o : RangeOrder) (p : RADOSBenchData F)
    (c : Nat) (h : p.data.lookup (formatUint c) = none) : p.prepareData o c = some p := by
  unfold RADOSBenchData.prepareData
  split
  · rfl
  · rw [h]

/-- Claim C17. For every state and every level `c` that `data` does not hold, `sort(c)`
and `prepareData(c)` both return and leave the state as it was; on a store fresh from
`parserJsonContent` `bss[c]` and `items[c]` so stay unset and the three series maps stay
`nil`. -/
theorem absent_level_unchanged {F : Type} [Float64 F] (o : RangeOrder) (p : RADOSBenchData F)
    (c : Nat) (h : p.data.lookup (formatUint c) = none) :
    p.sort o c = some p ∧ p.prepareData o c = some p ∧
    ∀ rbs : RADOSBenchOutputs, p = parserJsonContent rbs →
      c ∉ p.bss ∧ c ∉ p.items ∧ p.IOPSData = none ∧ p.BWData = none ∧ p.LatencyData = none := by
  refine ⟨sort_of_absent o p c h, prepareData_of_absent o p c h, ?_⟩
  intro rbs hp
  subst hp
  obtain ⟨h1, h2, h3, h4, h5⟩ := foldl_parserStep_frame (F := F) rbs
    { data := ∅, bss := ∅, items := ∅, IOPSData := none, BWData := none, LatencyData := none }
  unfold parserJsonContent
  rw [h1, h2, h3, h4, h5]
  exact ⟨Finmap.not_mem_empty, Finmap.not_mem_empty, rfl, rfl, rfl⟩

/-- Claim C17 has an input: level 7 of the scenario of the specification. -/
theorem absent_level_unchanged_witness :
    (parserJsonContent scenarioInput : RADOSBenchData SymFloat).sort scenarioOrder 7 =
      some (parserJsonContent scenarioInput) ∧
    (parserJsonContent scenarioInput : RADOSBenchData SymFloat).prepareData scenarioOrder 7 =
      some (parserJsonContent scenarioInput) :=
  ⟨(absent_level_unchanged scenarioOrder
      (parserJsonContent scenarioInput : RADOSBenchData SymFloat) 7 (by decide)).1,
    (absent_level_unchanged scenarioOrder
      (parserJsonContent scenarioInput : RADOSBenchData SymFloat) 7 (by decide)).2.1⟩

/-! ### Memoization of the axis -/

theorem sort_of_sorted {F : Type} (o : RangeOrder) (p : RADOSBenchData F) (c : Nat)
    (h : sliceAt p.bss c ≠ []) : p.sort o c = some p := by
  unfold RADOSBenchData.sort
  rw [if_pos (by simp [RADOSBenchData.isSorted, h])]

theorem sort_of_present {F : Type} (o : RangeOrder) (p : RADOSBenchData F) (c : Nat)
    (jobData : GoMap (GoMap (Metrics F))) (hb : sliceAt p.bss c = [])
    (hdata : p.data.lookup (formatUint c) = some jobData) :
    p.sort o c =
      (sortSort BySize.Less (sliceAt (o.outer.foldl (sortBsStep o c) (p, ∅)).1.bss c)).map
        (sortedAxes (o.outer.foldl (sortBsStep o c) (p, ∅)).1 c) := by
  unfold RADOSBenchData.sort
  rw [if_neg (by simp [RADOSBenchData.isSorted, hb]), hdata]
  simp only []
  cases sortSort BySize.Less (sliceAt (o.outer.foldl (sortBsStep o c) (p, ∅)).1.bss c) with
  | none => rfl
  | some sorted => rfl

theorem insertLeft_perm {α : Type} (less : α → α → Option Bool) (x : α) (rev r : List α)
    (h : insertLeft less x rev = some r) : r.Perm (x :: rev) := by
  induction rev generalizing r with
  | nil =>
    simp only [insertLeft, Option.some.injEq] at h
    rw [← h]
  | cons y ys ih =>
    unfold insertLeft at h
    split at h
    · exact absurd h (by simp)
    · cases hr : insertLeft less x ys with
      | none => rw [hr] at h; exact absurd h (by simp)
      | some r1 =>
        rw [hr] at h
        simp only [Option.map_some', Option.some.injEq] at h
        rw [← h]
        exact (List.Perm.cons y (ih r1 hr)).trans (List.Perm.swap x y ys)
    · simp only [Option.some.injEq] at h
      rw [← h]

theorem insertAll_perm {α : Type} (less : α → α → Option Bool) (l rev r : List α)
    (h : insertAll less l rev = some r) : r.Perm (l.reverse ++ rev) := by
  induction l generalizing rev r with
  | nil =>
    simp only [insertAll, Option.some.injEq] at h
    rw [← h]
    simp
  | cons x xs ih =>
    unfold insertAll at h
    split at h
    · exact absurd h (by simp)
    · rename_i rev1 hrev1
      refine (ih rev1 r h).trans ?_
      rw [List.reverse_cons, List.append_assoc]
      exact List.Perm.append_left _ (insertLeft_perm less x rev rev1 hrev1)

theorem sortSort_perm {α : Type} (less : α → α → Option Bool) (l r : List α)
    (h : sortSort less l = some r) : r.Perm l := by
  unfold sortSort at h
  cases hr : insertAll less l [] with
  | none => rw [hr] at h; exact absurd h (by simp)
  | some r1 =>
    rw [hr] at h
    simp only [Option.map_some', Option.some.injEq] at h
    rw [← h]
    refine (List.reverse_perm r1).trans ((insertAll_perm less l [] r1 hr).trans ?_)
    rw [List.append_nil]
    exact List.reverse_perm l

theorem sortStrings_idempotent (l : List GoString) : sortStrings (sortStrings l) = sortStrings l := by
  obtain ⟨h1, h2⟩ := sortStrings_spec l
  obtain ⟨h3, h4⟩ := sortStrings_spec (sortStrings l)
  exact List.eq_of_perm_of_sorted h3 h4 h2

theorem sortedAxes_frame {F : Type} (p : RADOSBenchData F) (c : Nat) (s : List GoString) :
    (sortedAxes p c s).data = p.data ∧ (sortedAxes p c s).IOPSData = p.IOPSData ∧
    (sortedAxes p c s).BWData = p.BWData ∧ (sortedAxes p c s).LatencyData = p.LatencyData ∧
    (∀ k, k ≠ c → (sortedAxes p c s).bss.lookup k = p.bss.lookup k) ∧
    (∀ k, k ≠ c → (sortedAxes p c s).items.lookup k = p.items.lookup k) ∧
    (c ∈ p.bss → sliceAt (sortedAxes p c s).bss c = s) ∧
    (c ∉ p.bss → (sortedAxes p c s).bss = p.bss) ∧
    sliceAt (sortedAxes p c s).items c = sortStrings (sliceAt p.items c) := by
  have hnil : sortStrings [] = [] := by decide
  by_cases h1 : c ∈ p.bss
  · by_cases h2 : c ∈ p.items
    · have heq : sortedAxes p c s = { p with
          bss := p.bss.insert c s
          items := p.items.insert c (sortStrings (sliceAt p.items c)) } := by
        unfold sortedAxes
        simp only [h1, h2, if_true]
      rw [heq]
      exact ⟨rfl, rfl, rfl, rfl, fun k hk => Finmap.lookup_insert_of_ne _ hk,
        fun k hk => Finmap.lookup_insert_of_ne _ hk, fun _ => sliceAt_insert _ _ _,
        fun h => absurd h1 h, sliceAt_insert _ _ _⟩
    · have heq : sortedAxes p c s = { p with bss := p.bss.insert c s } := by
        unfold sortedAxes
        simp only [h1, h2, if_true, if_false]
      rw [heq]
      refine ⟨rfl, rfl, rfl, rfl, fun k hk => Finmap.lookup_insert_of_ne _ hk,
        fun _ _ => rfl, fun _ => sliceAt_insert _ _ _, fun h => absurd h1 h, ?_⟩
      rw [sliceAt_of_not_mem _ _ h2, hnil]
  · by_cases h2 : c ∈ p.items
    · have heq : sortedAxes p c s =
          { p with items := p.items.insert c (sortStrings (sliceAt p.items c)) } := by
        unfold sortedAxes
        simp only [h1, h2, if_true, if_false]
      rw [heq]
      exact ⟨rfl, rfl, rfl, rfl, fun _ _ => rfl,
        fun k hk => Finmap.lookup_insert_of_ne _ hk, fun h => absurd h h1, fun _ => rfl,
        sliceAt_insert _ _ _⟩
    · have heq : sortedAxes p c s = p := by
        unfold sortedAxes
        simp only [h1, h2, if_false]
      rw [heq]
      refine ⟨rfl, rfl, rfl, rfl, fun _ _ => rfl, fun _ _ => rfl, fun h => absurd h h1,
        fun _ => rfl, ?_⟩
      rw [sliceAt_of_not_mem _ _ h2, hnil]

theorem sortedAxes_nil_twice {F : Type} (p : RADOSBenchData F) (c : Nat) :
    sortedAxes (sortedAxes p c []) c [] = sortedAxes p c [] := by
  unfold sortedAxes
  by_cases h1 : c ∈ p.bss <;> by_cases h2 : c ∈ p.items <;>
    simp [h1, h2, Finmap.mem_insert, Finmap.insert_insert, sliceAt_insert,
      sortStrings_idempotent]

theorem sortSort_nil : sortSort BySize.Less [] = some [] := rfl

theorem sort_twice {F : Type} (o o2 : RangeOrder) (p q : RADOSBenchData F) (c : Nat)
    (hv : ∀ jobData, p.data.lookup (formatUint c) = some jobData →
      o.Valid jobData ∧ o2.Valid jobData)
    (hq : p.sort o c = some q) : q.sort o2 c = some q := by
  by_cases hb : sliceAt p.bss c = []
  · cases hdata : p.data.lookup (formatUint c) with
    | none =>
      rw [sort_of_absent o p c hdata] at hq
      rw [← Option.some.inj hq]
      exact sort_of_absent o2 p c hdata
    | some jobData =>
      obtain ⟨hv1, hv2⟩ := hv jobData hdata
      rw [sort_of_present o p c jobData hb hdata] at hq
      by_cases hout : o.outer = []
      · have hkeys : jobData.keys = ∅ := by rw [← hv1.1.2, hout]; rfl
        have hout2 : o2.outer = [] := by
          have := hv2.1.2
          rw [hkeys] at this
          exact (List.toFinset_eq_empty_iff _).1 this
        rw [hout] at hq
        simp only [List.foldl_nil, hb, sortSort_nil, Option.map_some', Option.some.injEq] at hq
        obtain ⟨f1, _, _, _, _, _, f7, f8, _⟩ := sortedAxes_frame p c []
        have hbq : sliceAt q.bss c = [] := by
          rw [← hq]
          by_cases hc : c ∈ p.bss
          · exact f7 hc
          · rw [f8 hc]; exact hb
        have hdq : q.data.lookup (formatUint c) = some jobData := by
          rw [← hq, f1]; exact hdata
        rw [sort_of_present o2 q c jobData hbq hdq, hout2]
        simp only [List.foldl_nil, hbq, sortSort_nil, Option.map_some', Option.some.injEq]
        rw [← hq]
        exact sortedAxes_nil_twice p c
      · obtain ⟨_, a1, _, _, _, a5, _, _, _, _⟩ := sortLoop_fold o c o.outer (p, ∅)
        rw [hb, List.nil_append] at a5
        generalize (o.outer.foldl (sortBsStep o c) (p, ∅)).1 = p1 at hq a1 a5
        rw [a5] at hq
        cases hs : sortSort BySize.Less o.outer with
        | none => rw [hs] at hq; exact absurd hq (by simp)
        | some sorted =>
          rw [hs] at hq
          simp only [Option.map_some', Option.some.injEq] at hq
          have hperm := sortSort_perm _ _ _ hs
          obtain ⟨_, _, _, _, _, _, f7, _, _⟩ := sortedAxes_frame p1 c sorted
          have hne : sorted ≠ [] := by
            intro h0
            rw [h0] at hperm
            exact hout (List.Perm.nil_eq hperm).symm
          have hmem : c ∈ p1.bss := by
            by_contra hc
            rw [sliceAt_of_not_mem _ _ hc] at a5
            exact hout a5.symm
          rw [← hq]
          exact sort_of_sorted o2 _ c (by rw [f7 hmem]; exact hne)
  · rw [sort_of_sorted o p c hb] at hq
    rw [← Option.some.inj hq]
    exact sort_of_sorted o2 p c hb

/-- Claim C14. Axis memoization is idempotent: for every state whose axis cache for level
`c` is populated (`bss[c]` non-empty), `sort(c)` returns the state completely unchanged,
whatever `data` holds by then and whatever order `range` would take; and when a call
`sort(c)` has returned, a second call returns the very same state, so `bss[c]` and
`items[c]` after two calls are those after one. -/
theorem sort_memoized {F : Type} (o o2 : RangeOrder) (p : RADOSBenchData F) (c : Nat) :
    (sliceAt p.bss c ≠ [] → p.sort o c = some p) ∧
    ((∀ jobData, p.data.lookup (formatUint c) = some jobData →
        o.Valid jobData ∧ o2.Valid jobData) →
      ∀ q, p.sort o c = some q →
        q.sort o2 c = some q ∧
        ((q.sort o2 c).map (fun r => (sliceAt r.bss c, sliceAt r.items c)) =
          some (sliceAt q.bss c, sliceAt q.items c))) := by
  refine ⟨sort_of_sorted o p c, ?_⟩
  intro hv q hq
  have h := sort_twice o o2 p q c hv hq
  exact ⟨h, by rw [h]; rfl⟩

/-- Claim C14 has inputs: a populated cache that no longer matches `data`, and the
scenario of the specification sorted twice, the second time in another order. -/
theorem sort_memoized_witness :
    populatedState.sort scenarioOrder 1 = some populatedState ∧
    scenarioSorted.sort { outer := [str "4k", str "64k"], inner := fun _ => [str "write"] } 1 =
      some scenarioSorted :=
  ⟨(sort_memoized scenarioOrder scenarioOrder populatedState 1).1 (by decide),
    ((sort_memoized scenarioOrder
      { outer := [str "4k", str "64k"], inner := fun _ => [str "write"] }
      (parserJsonContent scenarioInput : RADOSBenchData SymFloat) 1).2
      (fun jobData h => by
        have hj : jobData =
            levelOf (parserJsonContent scenarioInput : RADOSBenchData SymFloat) 1 :=
          Option.some.inj (h.symm.trans (by decide))
        rw [hj]
        decide)
      scenarioSorted (by decide)).1⟩

/-! ### One set of series for the whole store -/

theorem sortItems_fold_other {F : Type} (c : Nat) (l : List GoString)
    (acc : RADOSBenchData F × Finset GoString) (k : Nat) (hk : k ≠ c) :
    (l.foldl (sortItemStep c) acc).1.items.lookup k = acc.1.items.lookup k := by
  induction l generalizing acc with
  | nil => rfl
  | cons y ys ih =>
    simp only [List.foldl_cons]
    rw [ih]
    unfold sortItemStep
    split
    · rfl
    · exact Finmap.lookup_insert_of_ne _ hk

theorem sortLoop_fold_other {F : Type} (o : RangeOrder) (c : Nat) (outer : List GoString)
    (acc : RADOSBenchData F × Finset GoString) (k : Nat) (hk : k ≠ c) :
    (outer.foldl (sortBsStep o c) acc).1.bss.lookup k = acc.1.bss.lookup k ∧
    (outer.foldl (sortBsStep o c) acc).1.items.lookup k = acc.1.items.lookup k := by
  induction outer generalizing acc with
  | nil => exact ⟨rfl, rfl⟩
  | cons b bs ih =>
    simp only [List.foldl_cons]
    obtain ⟨h1, h2⟩ := ih (sortBsStep o c acc b)
    obtain ⟨_, _, a2, _, _, _, _, _, _, _⟩ := sortItems_fold c (o.inner b)
      (({ acc.1 with bss := acc.1.bss.insert c (sliceAt acc.1.bss c ++ [b]) } :
        RADOSBenchData F), acc.2)
    have h3 := sortItems_fold_other c (o.inner b)
      (({ acc.1 with bss := acc.1.bss.insert c (sliceAt acc.1.bss c ++ [b]) } :
        RADOSBenchData F), acc.2) k hk
    have hstep : sortBsStep o c acc b = (o.inner b).foldl (sortItemStep c)
        (({ acc.1 with bss := acc.1.bss.insert c (sliceAt acc.1.bss c ++ [b]) } :
          RADOSBenchData F), acc.2) := rfl
    rw [h1, h2, hstep, a2, h3]
    exact ⟨Finmap.lookup_insert_of_ne _ hk, rfl⟩

theorem sort_frame {F : Type} (o : RangeOrder) (p q : RADOSBenchData F) (c : Nat)
    (hq : p.sort o c = some q) :
    q.data = p.data ∧ q.IOPSData = p.IOPSData ∧ q.BWData = p.BWData ∧
    q.LatencyData = p.LatencyData ∧
    ∀ k, k ≠ c → q.bss.lookup k = p.bss.lookup k ∧ q.items.lookup k = p.items.lookup k := by
  by_cases hb : sliceAt p.bss c = []
  · cases hdata : p.data.lookup (formatUint c) with
    | none =>
      rw [sort_of_absent o p c hdata] at hq
      rw [← Option.some.inj hq]
      exact ⟨rfl, rfl, rfl, rfl, fun _ _ => ⟨rfl, rfl⟩⟩
    | some jobData =>
      rw [sort_of_present o p c jobData hb hdata] at hq
      obtain ⟨_, a1, a2, a3, a4, _, _, _, _, _⟩ := sortLoop_fold o c o.outer (p, ∅)
      have a5 := sortLoop_fold_other o c o.outer (p, ∅)
      generalize (o.outer.foldl (sortBsStep o c) (p, ∅)).1 = p1 at hq a1 a2 a3 a4 a5
      cases hs : sortSort BySize.Less (sliceAt p1.bss c) with
      | none => rw [hs] at hq; exact absurd hq (by simp)
      | some sorted =>
        rw [hs] at hq
        simp only [Option.map_some', Option.some.injEq] at hq
        obtain ⟨f1, f2, f3, f4, f5, f6, _, _, _⟩ := sortedAxes_frame p1 c sorted
        rw [← hq]
        refine ⟨by rw [f1, a1], by rw [f2, a2], by rw [f3, a3], by rw [f4, a4], ?_⟩
        intro k hk
        rw [f5 k hk, f6 k hk]
        exact a5 k hk
  · rw [sort_of_sorted o p c hb] at hq
    rw [← Option.some.inj hq]
    exact ⟨rfl, rfl, rfl, rfl, fun _ _ => ⟨rfl, rfl⟩⟩

theorem prepareData_of_present {F : Type} [Float64 F] (o : RangeOrder) (p : RADOSBenchData F)
    (c : Nat) (jobData : GoMap (GoMap (Metrics F)))
    (hs : p.IOPSData = none ∧ p.BWData = none ∧ p.LatencyData = none)
    (hdata : p.data.lookup (formatUint c) = some jobData) :
    p.prepareData o c = (p.sort o c).map (fun p1 =>
      { p1 with
        IOPSData := some ((sliceAt p1.bss c).foldl (prepareBsStep jobData (sliceAt p1.items c))
          ({ iops := ∅, bw := ∅, latency := ∅ } : Series F)).iops
        BWData := some ((sliceAt p1.bss c).foldl (prepareBsStep jobData (sliceAt p1.items c))
          ({ iops := ∅, bw := ∅, latency := ∅ } : Series F)).bw
        LatencyData := some ((sliceAt p1.bss c).foldl
          (prepareBsStep jobData (sliceAt p1.items c))
          ({ iops := ∅, bw := ∅, latency := ∅ } : Series F)).latency }) := by
  unfold RADOSBenchData.prepareData
  simp only [hs.1, hs.2.1, hs.2.2, Option.isSome_none, Bool.false_eq_true, or_self, if_false,
    hdata]
  cases p.sort o c with
  | none => rfl
  | some p1 => rfl

/-- Claim C16 as amended. The flattened series are computed once for the whole store,
for the first level requested, not once per level: when `prepareData(c1)` has returned on
a store fresh from `parserJsonContent` that holds level `c1`, the series maps are set, and
`prepareData(c2)` returns the state unchanged for every `c2`: the series stay those of
`c1`, and for `c2` other than `c1` the axis `bss[c2]` and `items[c2]` stay unset. -/
theorem prepareData_first_level_only {F : Type} [Float64 F] (rbs : RADOSBenchOutputs)
    (c1 c2 : Nat) (o o2 : RangeOrder) (q : RADOSBenchData F)
    (hpresent : ((parserJsonContent rbs : RADOSBenchData F).data.lookup
      (formatUint c1)).isSome = true)
    (hq : (parserJsonContent rbs : RADOSBenchData F).prepareData o c1 = some q) :
    q.prepareData o2 c2 = some q ∧
    q.IOPSData.isSome = true ∧ q.BWData.isSome = true ∧ q.LatencyData.isSome = true ∧
    (c2 ≠ c1 → c2 ∉ q.bss ∧ c2 ∉ q.items) := by
  obtain ⟨jobData, hdata⟩ := Option.isSome_iff_exists.1 hpresent
  obtain ⟨_, _, f3, f4, f5⟩ := parserJsonContent_fresh (F := F) rbs c1
  rw [prepareData_of_present o _ c1 jobData ⟨f3, f4, f5⟩ hdata] at hq
  cases hs : (parserJsonContent rbs : RADOSBenchData F).sort o c1 with
  | none => rw [hs] at hq; exact absurd hq (by simp)
  | some q1 =>
    rw [hs] at hq
    simp only [Option.map_some', Option.some.injEq] at hq
    obtain ⟨_, _, _, _, hframe⟩ := sort_frame o _ q1 c1 hs
    obtain ⟨g1, g2, _, _, _⟩ := foldl_parserStep_frame (F := F) rbs
      { data := ∅, bss := ∅, items := ∅, IOPSData := none, BWData := none, LatencyData := none }
    subst hq
    refine ⟨prepareData_of_series o2 _ c2 (Or.inl rfl), rfl, rfl, rfl, ?_⟩
    intro hne
    obtain ⟨h1, h2⟩ := hframe c2 hne
    unfold parserJsonContent at h1 h2
    rw [g1] at h1
    rw [g2] at h2
    exact ⟨Finmap.lookup_eq_none.1 (by rw [h1]; rfl), Finmap.lookup_eq_none.1 (by rw [h2]; rfl)⟩

/-- Claim C16 as amended has an input: levels 1 and 2 of `twoLevelInput`. -/
theorem prepareData_first_level_only_witness :
    twoLevelFlattened.prepareData levelTwoOrder 2 = some twoLevelFlattened ∧
    2 ∉ twoLevelFlattened.bss ∧ 2 ∉ twoLevelFlattened.items :=
  ⟨(prepareData_first_level_only twoLevelInput 1 2 levelOneOrder levelTwoOrder
      twoLevelFlattened (by decide) (by decide)).1,
    (prepareData_first_level_only twoLevelInput 1 2 levelOneOrder levelTwoOrder
      twoLevelFlattened (by decide) (by decide)).2.2.2.2 (by decide)⟩

/-- Claim C16 as stated fails on the files `w_1_4k.json` and `w_2_64k.json`: both levels
are present and the walks are walks of their maps; after `prepareData(1)` the call
`prepareData(2)` leaves `bss[2]` and `items[2]` empty, and the rate series it exposes for
`w` is `[100]`, that of level 1, while `prepareData(2)` on a fresh copy gives `[50]`. -/
theorem prepareData_second_level_not_computed :
    levelOneOrder.Valid (levelOf (parserJsonContent twoLevelInput : RADOSBenchData SymFloat) 1) ∧
    levelTwoOrder.Valid (levelOf (parserJsonContent twoLevelInput : RADOSBenchData SymFloat) 2) ∧
    (((parserJsonContent twoLevelInput : RADOSBenchData SymFloat).prepareData levelOneOrder
      1).bind (fun q => q.prepareData levelTwoOrder 2)).map
        (fun r => (sliceAt r.bss 2, sliceAt r.items 2)) = some ([], []) ∧
    (((parserJsonContent twoLevelInput : RADOSBenchData SymFloat).prepareData levelOneOrder
      1).bind (fun q => q.prepareData levelTwoOrder 2)).map
        (fun r => r.IOPSData.map (fun m => seriesAt m (str "w"))) = some (some [100]) ∧
    ((parserJsonContent twoLevelInput : RADOSBenchData SymFloat).prepareData levelTwoOrder
      2).map (fun r => r.IOPSData.map (fun m => seriesAt m (str "w"))) = some (some [50]) ∧
    ((parserJsonContent twoLevelInput : RADOSBenchData SymFloat).prepareData levelTwoOrder
      2).map (fun r => sliceAt r.bss 2) = some [str "64k"] := by
  decide

/-! ### The names of a level -/

/-- Claim C13 fails on the files `a_1_.json` and `b_1_4k.json`: level 1 is present with
the names `a` and `b`, and whichever label `range` meets first, `sort(1)` panics in
`sort.Sort` (line 147, `parseSize("")` indexes `s[-1]`) before `sort.Strings` runs, so
`items[1]` is never delivered. -/
theorem sort_panics_before_names_sorted :
    twoNamesOrder.Valid
      (levelOf (parserJsonContent emptyLabelTwoNames : RADOSBenchData SymFloat) 1) ∧
    twoNamesOrderRev.Valid
      (levelOf (parserJsonContent emptyLabelTwoNames : RADOSBenchData SymFloat) 1) ∧
    (parserJsonContent emptyLabelTwoNames : RADOSBenchData SymFloat).sort twoNamesOrder 1 =
      none ∧
    (parserJsonContent emptyLabelTwoNames : RADOSBenchData SymFloat).sort twoNamesOrderRev 1 =
      none := by
  decide

/-- X6 (the content of claim C13 away from the panic). For every store built by
`parserJsonContent`, every level `c` it holds and every order in which `range` may walk
the maps: when no block-size label under the level is empty, `sort(c)` returns and
`items[c]` holds exactly the names found under some block size of `data[c]`, each once,
in strictly ascending byte-wise order. -/
theorem sort_items_sorted_set {F : Type} [Float64 F] (rbs : RADOSBenchOutputs)
    (c : Nat) (o : RangeOrder) (jobData : GoMap (GoMap (Metrics F)))
    (hdata : (parserJsonContent rbs : RADOSBenchData F).data.lookup (formatUint c) =
      some jobData)
    (hvalid : o.Valid jobData) (hne : ∀ bs ∈ jobData, bs ≠ []) :
    ∃ q : RADOSBenchData F,
      (parserJsonContent rbs : RADOSBenchData F).sort o c = some q ∧
      (sliceAt q.items c).Nodup ∧
      (∀ x, x ∈ sliceAt q.items c ↔
        ∃ bs bsData, jobData.lookup bs = some bsData ∧ x ∈ bsData) ∧
      (sliceAt q.items c).Pairwise (fun a b => a < b) := by
  obtain ⟨f1, f2, _, _, _⟩ := parserJsonContent_fresh (F := F) rbs c
  obtain ⟨q, extra, hq, _, _, _, _, _, _, q7, q8, q9, q10⟩ := sort_fresh o _ c jobData f1 f2
    hdata (fun bs hbs => hne bs ((valid_outer o jobData hvalid bs).1 hbs))
  have hnd : (sliceAt q.items c).Nodup := (List.Perm.nodup_iff q7).2 q9
  refine ⟨q, hq, hnd, ?_, ?_⟩
  · intro x
    rw [List.Perm.mem_iff q7, q10 x]
    constructor
    · rintro ⟨bs, hbs, hx⟩
      have hbs2 := (valid_outer o jobData hvalid bs).1 hbs
      obtain ⟨bsData, hbd⟩ := Finmap.mem_iff.1 hbs2
      refine ⟨bs, bsData, hbd, ?_⟩
      have := (valid_inner o jobData hvalid bs hbs2 x).1 hx
      rw [hbd] at this
      exact this
    · rintro ⟨bs, bsData, hbd, hx⟩
      have hbs2 : bs ∈ jobData := Finmap.mem_iff.2 ⟨bsData, hbd⟩
      refine ⟨bs, (valid_outer o jobData hvalid bs).2 hbs2, ?_⟩
      apply (valid_inner o jobData hvalid bs hbs2 x).2
      rw [hbd]
      exact hx
  · exact (List.Pairwise.and q8 hnd).imp (fun h => lt_of_le_of_ne h.1 h.2)

/-- X6 has an input: the names `A` and `B` of `zeroFillInput`. -/
theorem sort_items_sorted_set_witness :
    ∃ q : RADOSBenchData SymFloat,
      (parserJsonContent zeroFillInput : RADOSBenchData SymFloat).sort zeroFillOrder 1 =
        some q ∧
      (sliceAt q.items 1).Nodup ∧
      (∀ x, x ∈ sliceAt q.items 1 ↔
        ∃ bs bsData, (levelOf (parserJsonContent zeroFillInput : RADOSBenchData SymFloat)
          1).lookup bs = some bsData ∧ x ∈ bsData) ∧
      (sliceAt q.items 1).Pairwise (fun a b => a < b) :=
  sort_items_sorted_set (F := SymFloat) zeroFillInput 1 zeroFillOrder
    (levelOf (parserJsonContent zeroFillInput : RADOSBenchData SymFloat) 1)
    (by decide) (by decide) (by decide)

/-! ### Order of the input -/

theorem lookup_setBlock {M : Type} (jobData : GoMap (GoMap M)) (bs n : GoString) (m : M)
    (y : GoString) :
    (setBlock jobData bs n m).lookup y =
      if y = bs then some (((jobData.lookup bs).getD ∅).insert n m) else jobData.lookup y := by
  unfold setBlock
  by_cases h : y = bs
  · subst h; rw [Finmap.lookup_insert, if_pos rfl]
  · rw [Finmap.lookup_insert_of_ne _ h, if_neg h]

theorem lookup_setCell {M : Type} (d : GoMap (GoMap (GoMap M))) (jobs bs n : GoString) (m : M)
    (x : GoString) :
    (setCell d jobs bs n m).lookup x =
      if x = jobs then some (setBlock ((d.lookup jobs).getD ∅) bs n m) else d.lookup x := by
  unfold setCell
  by_cases h : x = jobs
  · subst h; rw [Finmap.lookup_insert, if_pos rfl]
  · rw [Finmap.lookup_insert_of_ne _ h, if_neg h]

theorem setBlock_comm {M : Type} (jobData : GoMap (GoMap M)) (b n b2 n2 : GoString) (m m2 : M)
    (h : ¬ (b = b2 ∧ n = n2)) :
    setBlock (setBlock jobData b n m) b2 n2 m2 = setBlock (setBlock jobData b2 n2 m2) b n m := by
  apply Finmap.ext_lookup
  intro y
  simp only [lookup_setBlock]
  by_cases hb : b = b2
  · subst hb
    have hn : n ≠ n2 := fun hn => h ⟨rfl, hn⟩
    by_cases hy : y = b
    · simp only [hy, if_true, Option.getD_some]
      rw [Finmap.insert_insert_of_ne _ hn]
    · simp only [hy, if_false]
  · have hb2 : ¬ b2 = b := fun h2 => hb h2.symm
    by_cases hy : y = b
    · subst hy
      simp only [hb, hb2, if_true, if_false]
    · by_cases hy2 : y = b2
      · subst hy2
        simp only [hb, hb2, if_true, if_false]
      · simp only [hy, hy2, if_false]

theorem setCell_comm {M : Type} (d : GoMap (GoMap (GoMap M))) (j b n j2 b2 n2 : GoString)
    (m m2 : M) (h : ¬ (j = j2 ∧ b = b2 ∧ n = n2)) :
    setCell (setCell d j b n m) j2 b2 n2 m2 = setCell (setCell d j2 b2 n2 m2) j b n m := by
  apply Finmap.ext_lookup
  intro x
  simp only [lookup_setCell]
  by_cases hj : j = j2
  · subst hj
    have hbn : ¬ (b = b2 ∧ n = n2) := fun hbn => h ⟨rfl, hbn⟩
    by_cases hx : x = j
    · simp only [hx, if_true, Option.getD_some]
      rw [setBlock_comm _ _ _ _ _ _ _ hbn]
    · simp only [hx, if_false]
  · have hj2 : ¬ j2 = j := fun h2 => hj h2.symm
    by_cases hx : x = j
    · subst hx
      simp only [hj, hj2, if_true, if_false]
    · by_cases hx2 : x = j2
      · subst hx2
        simp only [hj, hj2, if_true, if_false]
      · simp only [hx, hx2, if_false]

theorem parserStep_eq {F : Type} [Float64 F] (p : RADOSBenchData F)
    (e : GoString × RADOSBenchOutput) :
    parserStep p e =
      { p with
        data := (setCell p.data (splitString e.1).2.1 (splitString e.1).2.2
          (splitString e.1).1 e.2.metrics) } := rfl

theorem parserStep_comm {F : Type} [Float64 F] (p : RADOSBenchData F)
    (e e2 : GoString × RADOSBenchOutput) (h : splitString e.1 ≠ splitString e2.1) :
    parserStep (parserStep p e) e2 = parserStep (parserStep p e2) e := by
  simp only [parserStep_eq]
  rw [setCell_comm]
  rintro ⟨h1, h2, h3⟩
  apply h
  rw [Prod.ext_iff, Prod.ext_iff]
  exact ⟨h3, h1, h2⟩

theorem parserJsonContent_perm {F : Type} [Float64 F] (rbs rbs2 : RADOSBenchOutputs)
    (hperm : rbs.Perm rbs2)
    (h : ∀ e ∈ rbs, ∀ e2 ∈ rbs, splitString e.1 = splitString e2.1 → e = e2) :
    (parserJsonContent rbs : RADOSBenchData F) = parserJsonContent rbs2 := by
  unfold parserJsonContent
  apply List.Perm.foldl_eq' hperm
  intro x hx y hy z
  by_cases hxy : splitString x.1 = splitString y.1
  · rw [h x hx y hy hxy]
  · exact parserStep_comm z x y hxy

/-- Claim C18 as amended. The store built by `parserJsonContent` does not depend on the
order in which `range` yields the entries of the input map (pairwise distinct
identifiers), provided no two identifiers of the input get the same triple from
`splitString`; that is so whenever every identifier has at least 3 segments. -/
theorem parserJsonContent_order_independent {F : Type} [Float64 F]
    (rbs rbs2 : RADOSBenchOutputs) (hperm : rbs.Perm rbs2)
    (hkeys : (rbs.map Prod.fst).Nodup)
    (h : (∀ e ∈ rbs, validId e.1 = true) ∨
      (∀ e ∈ rbs, ∀ e2 ∈ rbs, splitString e.1 = splitString e2.1 → e.1 = e2.1)) :
    (parserJsonContent rbs : RADOSBenchData F).data =
      (parserJsonContent rbs2 : RADOSBenchData F).data := by
  have hinj : ∀ e ∈ rbs, ∀ e2 ∈ rbs, splitString e.1 = splitString e2.1 → e = e2 := by
    intro e he e2 he2 hs
    apply entry_unique rbs hkeys e e2 he he2
    rcases h with h | h
    · exact splitString_injective e.1 e2.1 (h e he) (h e2 he2) hs
    · exact h e he e2 he2 hs
  rw [parserJsonContent_perm rbs rbs2 hperm hinj]

/-- Claim C18 as amended has an input: the scenario of the specification, its two
entries yielded in either order. -/
theorem parserJsonContent_order_independent_witness :
    (parserJsonContent scenarioInput : RADOSBenchData SymFloat).data =
      (parserJsonContent scenarioInput.reverse : RADOSBenchData SymFloat).data :=
  parserJsonContent_order_independent scenarioInput scenarioInput.reverse
    (List.reverse_perm scenarioInput).symm (by decide) (Or.inl (by decide))

/-- Claim C18 as stated fails on the files `a.json` and `b.json`: the identifiers are
distinct, both have fewer than 3 segments and so the triple `("", "", "")`; yielded as
`a, b` the store holds the metrics of `b` at `data[""][""][""]`, yielded as `b, a` those
of `a`, and the two `data` maps differ. -/
theorem parserJsonContent_order_dependent :
    (twoInvalidInput.map Prod.fst).Nodup ∧ twoInvalidInput.Perm twoInvalidInput.reverse ∧
    cell (parserJsonContent twoInvalidInput : RADOSBenchData SymFloat).data (str "") (str "")
      (str "") = some (sampleRecord "9" "2.0" "0.2").metrics ∧
    cell (parserJsonContent twoInvalidInput.reverse : RADOSBenchData SymFloat).data (str "")
      (str "") (str "") = some (sampleRecord "7" "1.0" "0.1").metrics ∧
    (parserJsonContent twoInvalidInput : RADOSBenchData SymFloat).data ≠
      (parserJsonContent twoInvalidInput.reverse : RADOSBenchData SymFloat).data := by
  decide

/-! ### Order of the two loops of the flattener -/

theorem specCellStep_eq {F : Type} [Float64 F] (jobData : GoMap (GoMap (Metrics F)))
    (name : GoString) (acc : Series F) (bs : GoString) :
    specCellStep jobData name acc bs =
      prepareItemStep ((jobData.lookup bs).getD ∅) acc name := by
  unfold specCellStep prepareItemStep
  cases hb : jobData.lookup bs with
  | none =>
    simp only [Option.none_bind, Option.getD_none, Finmap.lookup_empty, Metrics.zero,
      Float64.mul1000_zero]
  | some bsData =>
    simp only [Option.some_bind, Option.getD_some]
    cases hn : bsData.lookup name with
    | none => simp only [Option.getD_none, Metrics.zero, Float64.mul1000_zero]
    | some m => simp only [Option.getD_some]

theorem columnFold_lookup {T : Type} (g : GoString → T) (name : GoString)
    (axis : List GoString) (m : GoMap (List T)) (x : GoString) :
    (axis.foldl (fun acc b => acc.insert name (seriesAt acc name ++ [g b])) m).lookup x =
      if x = name ∧ axis ≠ [] then some (seriesAt m name ++ axis.map g) else m.lookup x := by
  induction axis generalizing m with
  | nil => simp
  | cons b bs ih =>
    simp only [List.foldl_cons]
    rw [ih, seriesAt_insert]
    by_cases hx : x = name
    · subst hx
      by_cases hbs : bs = []
      · subst hbs
        simp [Finmap.lookup_insert]
      · simp [hbs]
    · simp [hx, Finmap.lookup_insert_of_ne _ hx]

theorem namesFold_lookup {T : Type} (g : GoString → GoString → T) (names : List GoString)
    (hnd : names.Nodup) (axis : List GoString) (m : GoMap (List T)) (x : GoString) :
    (names.foldl (fun acc name =>
        axis.foldl (fun acc1 b => acc1.insert name (seriesAt acc1 name ++ [g b name])) acc)
        m).lookup x =
      if x ∈ names ∧ axis ≠ [] then some (seriesAt m x ++ axis.map (fun b => g b x))
      else m.lookup x := by
  induction names generalizing m with
  | nil => simp
  | cons y ys ih =>
    simp only [List.foldl_cons]
    have hy := List.nodup_cons.1 hnd
    rw [ih hy.2]
    have hcol := columnFold_lookup (fun b => g b y) y axis m
    by_cases hax : axis = []
    · subst hax
      simp
    · by_cases hxy : x = y
      · subst hxy
        simp only [hy.1, false_and, if_false, hcol, hax, ne_eq, not_false_eq_true, and_self,
          if_true, List.mem_cons, true_or, true_and]
      · have hmem : x ∈ y :: ys ↔ x ∈ ys := by simp [hxy]
        have hl : (axis.foldl (fun acc1 b => acc1.insert y (seriesAt acc1 y ++ [g b y]))
            m).lookup x = m.lookup x := by
          rw [hcol x]; simp [hxy]
        simp only [seriesAt] at hl ⊢
        simp only [hl, hmem]

theorem specColumn_fold {F : Type} [Float64 F] (jobData : GoMap (GoMap (Metrics F)))
    (name : GoString) (axis : List GoString) (acc : Series F) :
    (axis.foldl (specCellStep jobData name) acc).iops =
        axis.foldl (fun m b => m.insert name (seriesAt m name ++
          [((((jobData.lookup b).getD ∅).lookup name).getD Metrics.zero).IOPS])) acc.iops ∧
    (axis.foldl (specCellStep jobData name) acc).bw =
        axis.foldl (fun m b => m.insert name (seriesAt m name ++
          [((((jobData.lookup b).getD ∅).lookup name).getD Metrics.zero).Bw])) acc.bw ∧
    (axis.foldl (specCellStep jobData name) acc).latency =
        axis.foldl (fun m b => m.insert name (seriesAt m name ++
          [Float64.mul1000
            ((((jobData.lookup b).getD ∅).lookup name).getD Metrics.zero).Latency]))
          acc.latency := by
  induction axis generalizing acc with
  | nil => exact ⟨rfl, rfl, rfl⟩
  | cons b bs ih =>
    simp only [List.foldl_cons]
    obtain ⟨h1, h2, h3⟩ := ih (specCellStep jobData name acc b)
    rw [h1, h2, h3, specCellStep_eq]
    exact ⟨rfl, rfl, rfl⟩

theorem specSeries_fold {F : Type} [Float64 F] (jobData : GoMap (GoMap (Metrics F)))
    (names axis : List GoString) (acc : Series F) :
    (names.foldl (fun a name => axis.foldl (specCellStep jobData name) a) acc).iops =
        names.foldl (fun m name => axis.foldl (fun m1 b => m1.insert name (seriesAt m1 name ++
          [((((jobData.lookup b).getD ∅).lookup name).getD Metrics.zero).IOPS])) m) acc.iops ∧
    (names.foldl (fun a name => axis.foldl (specCellStep jobData name) a) acc).bw =
        names.foldl (fun m name => axis.foldl (fun m1 b => m1.insert name (seriesAt m1 name ++
          [((((jobData.lookup b).getD ∅).lookup name).getD Metrics.zero).Bw])) m) acc.bw ∧
    (names.foldl (fun a name => axis.foldl (specCellStep jobData name) a) acc).latency =
        names.foldl (fun m name => axis.foldl (fun m1 b => m1.insert name (seriesAt m1 name ++
          [Float64.mul1000
            ((((jobData.lookup b).getD ∅).lookup name).getD Metrics.zero).Latency])) m)
          acc.latency := by
  induction names generalizing acc with
  | nil => exact ⟨rfl, rfl, rfl⟩
  | cons y ys ih =>
    simp only [List.foldl_cons]
    obtain ⟨h1, h2, h3⟩ := ih (axis.foldl (specCellStep jobData y) acc)
    obtain ⟨k1, k2, k3⟩ := specColumn_fold jobData y axis acc
    rw [h1, h2, h3, k1, k2, k3]
    exact ⟨rfl, rfl, rfl⟩

theorem loops_interchange {F : Type} [Float64 F] (jobData : GoMap (GoMap (Metrics F)))
    (names axis : List GoString) (hnd : names.Nodup) :
    (axis.foldl (prepareBsStep jobData names)
        ({ iops := ∅, bw := ∅, latency := ∅ } : Series F)).iops =
      (specSeries jobData names axis).iops ∧
    (axis.foldl (prepareBsStep jobData names)
        ({ iops := ∅, bw := ∅, latency := ∅ } : Series F)).bw =
      (specSeries jobData names axis).bw ∧
    (axis.foldl (prepareBsStep jobData names)
        ({ iops := ∅, bw := ∅, latency := ∅ } : Series F)).latency =
      (specSeries jobData names axis).latency := by
  obtain ⟨g1, g2, g3⟩ := prepareGrid_fold jobData names axis
    ({ iops := ∅, bw := ∅, latency := ∅ } : Series F)
  obtain ⟨s1, s2, s3⟩ := specSeries_fold jobData names axis
    ({ iops := ∅, bw := ∅, latency := ∅ } : Series F)
  unfold specSeries
  rw [g1, g2, g3, s1, s2, s3]
  refine ⟨?_, ?_, ?_⟩ <;>
  · apply Finmap.ext_lookup
    intro x
    rw [gridFold_lookup _ _ hnd, namesFold_lookup _ _ hnd]

theorem sort_items_nodup {F : Type} (o : RangeOrder) (p q : RADOSBenchData F) (c : Nat)
    (jobData : GoMap (GoMap (Metrics F))) (hb : sliceAt p.bss c = [])
    (hi : sliceAt p.items c = []) (hdata : p.data.lookup (formatUint c) = some jobData)
    (hq : p.sort o c = some q) : (sliceAt q.items c).Nodup := by
  rw [sort_of_present o p c jobData hb hdata] at hq
  obtain ⟨extra, _, _, _, _, _, a6, _, a8, _⟩ := sortLoop_fold o c o.outer (p, ∅)
  rw [hi, List.nil_append] at a6
  generalize (o.outer.foldl (sortBsStep o c) (p, ∅)).1 = p1 at hq a6
  cases hs : sortSort BySize.Less (sliceAt p1.bss c) with
  | none => rw [hs] at hq; exact absurd hq (by simp)
  | some sorted =>
    rw [hs] at hq
    simp only [Option.map_some', Option.some.injEq] at hq
    obtain ⟨_, _, _, _, _, _, _, _, f9⟩ := sortedAxes_frame p1 c sorted
    rw [← hq, f9, a6]
    exact (List.Perm.nodup_iff (sortStrings_spec extra).1).2 a8

/-- Claim C19. Loop-order equivalence. For a level map `jobData`, an axis and a list of
names without repetition, the three series maps that the loops of `prepareData` build
(block sizes outside, names inside) are the maps that the order of the specification
builds (names outside, block sizes inside, the looked-up metric or zero appended). So for
every store built by `parserJsonContent` and every level `c` it holds, the series that
`prepareData(c)` leaves in the state are the specified ones over `bss[c]` and
`items[c]`. -/
theorem prepareData_refines_spec_order {F : Type} [Float64 F] (rbs : RADOSBenchOutputs)
    (c : Nat) (o : RangeOrder) (jobData : GoMap (GoMap (Metrics F))) (q : RADOSBenchData F)
    (names axis : List GoString) :
    (names.Nodup →
      (axis.foldl (prepareBsStep jobData names)
          ({ iops := ∅, bw := ∅, latency := ∅ } : Series F)).iops =
        (specSeries jobData names axis).iops ∧
      (axis.foldl (prepareBsStep jobData names)
          ({ iops := ∅, bw := ∅, latency := ∅ } : Series F)).bw =
        (specSeries jobData names axis).bw ∧
      (axis.foldl (prepareBsStep jobData names)
          ({ iops := ∅, bw := ∅, latency := ∅ } : Series F)).latency =
        (specSeries jobData names axis).latency) ∧
    ((parserJsonContent rbs : RADOSBenchData F).data.lookup (formatUint c) = some jobData →
      (parserJsonContent rbs : RADOSBenchData F).prepareData o c = some q →
      q.IOPSData = some (specSeries jobData (sliceAt q.items c) (sliceAt q.bss c)).iops ∧
      q.BWData = some (specSeries jobData (sliceAt q.items c) (sliceAt q.bss c)).bw ∧
      q.LatencyData =
        some (specSeries jobData (sliceAt q.items c) (sliceAt q.bss c)).latency) := by
  refine ⟨loops_interchange jobData names axis, ?_⟩
  intro hdata hq
  obtain ⟨f1, f2, f3, f4, f5⟩ := parserJsonContent_fresh (F := F) rbs c
  rw [prepareData_of_present o _ c jobData ⟨f3, f4, f5⟩ hdata] at hq
  cases hs : (parserJsonContent rbs : RADOSBenchData F).sort o c with
  | none => rw [hs] at hq; exact absurd hq (by simp)
  | some q1 =>
    rw [hs] at hq
    simp only [Option.map_some', Option.some.injEq] at hq
    have hnd := sort_items_nodup o _ q1 c jobData f1 f2 hdata hs
    obtain ⟨l1, l2, l3⟩ := loops_interchange jobData (sliceAt q1.items c) (sliceAt q1.bss c) hnd
    subst hq
    simp only []
    rw [l1, l2, l3]
    exact ⟨rfl, rfl, rfl⟩

/-- Claim C19 has an input with two names and an absent cell: in `zeroFillInput` name `A`
has no data at `64k`. Over the axis `4k, 64k` and the names `A, B` the two loop orders
append in different sequences (`A, B, A, B` against `A, A, B, B`) and give the same three
maps, which are the ones `prepareData(1)` leaves in the state: the rates of `A` are `7, 0`
and those of `B` are `8, 9`. -/
theorem prepareData_refines_spec_order_witness :
    ((([str "4k", str "64k"].foldl
        (prepareBsStep (levelOf (parserJsonContent zeroFillInput : RADOSBenchData SymFloat) 1)
          [str "A", str "B"])
        ({ iops := ∅, bw := ∅, latency := ∅ } : Series SymFloat)).iops =
      (specSeries (levelOf (parserJsonContent zeroFillInput : RADOSBenchData SymFloat) 1)
        [str "A", str "B"] [str "4k", str "64k"]).iops) ∧
    (([str "4k", str "64k"].foldl
        (prepareBsStep (levelOf (parserJsonContent zeroFillInput : RADOSBenchData SymFloat) 1)
          [str "A", str "B"])
        ({ iops := ∅, bw := ∅, latency := ∅ } : Series SymFloat)).bw =
      (specSeries (levelOf (parserJsonContent zeroFillInput : RADOSBenchData SymFloat) 1)
        [str "A", str "B"] [str "4k", str "64k"]).bw) ∧
    (([str "4k", str "64k"].foldl
        (prepareBsStep (levelOf (parserJsonContent zeroFillInput : RADOSBenchData SymFloat) 1)
          [str "A", str "B"])
        ({ iops := ∅, bw := ∅, latency := ∅ } : Series SymFloat)).latency =
      (specSeries (levelOf (parserJsonContent zeroFillInput : RADOSBenchData SymFloat) 1)
        [str "A", str "B"] [str "4k", str "64k"]).latency)) ∧
    (zeroFillFlattened.IOPSData =
      some (specSeries (levelOf (parserJsonContent zeroFillInput : RADOSBenchData SymFloat) 1)
        (sliceAt zeroFillFlattened.items 1) (sliceAt zeroFillFlattened.bss 1)).iops ∧
    zeroFillFlattened.BWData =
      some (specSeries (levelOf (parserJsonContent zeroFillInput : RADOSBenchData SymFloat) 1)
        (sliceAt zeroFillFlattened.items 1) (sliceAt zeroFillFlattened.bss 1)).bw ∧
    zeroFillFlattened.LatencyData =
      some (specSeries (levelOf (parserJsonContent zeroFillInput : RADOSBenchData SymFloat) 1)
        (sliceAt zeroFillFlattened.items 1) (sliceAt zeroFillFlattened.bss 1)).latency) ∧
    sliceAt zeroFillFlattened.bss 1 = [str "4k", str "64k"] ∧
    sliceAt zeroFillFlattened.items 1 = [str "A", str "B"] ∧
    cell (parserJsonContent zeroFillInput : RADOSBenchData SymFloat).data (str "1") (str "64k")
      (str "A") = none ∧
    seriesAt (specSeries (levelOf (parserJsonContent zeroFillInput : RADOSBenchData SymFloat) 1)
      [str "A", str "B"] [str "4k", str "64k"]).iops (str "A") = [7, 0] ∧
    seriesAt (specSeries (levelOf (parserJsonContent zeroFillInput : RADOSBenchData SymFloat) 1)
      [str "A", str "B"] [str "4k", str "64k"]).iops (str "B") = [8, 9] ∧
    seriesAt (specSeries (levelOf (parserJsonContent zeroFillInput : RADOSBenchData SymFloat) 1)
      [str "A", str "B"] [str "4k", str "64k"]).latency (str "A") =
      [SymFloat.scaled (SymFloat.parsed (str "0.1")), SymFloat.zero] :=
  ⟨(prepareData_refines_spec_order (F := SymFloat) zeroFillInput 1 zeroFillOrder
      (levelOf (parserJsonContent zeroFillInput : RADOSBenchData SymFloat) 1) zeroFillFlattened
      [str "A", str "B"] [str "4k", str "64k"]).1 (by decide),
    (prepareData_refines_spec_order (F := SymFloat) zeroFillInput 1 zeroFillOrder
      (levelOf (parserJsonContent zeroFillInput : RADOSBenchData SymFloat) 1) zeroFillFlattened
      [str "A", str "B"] [str "4k", str "64k"]).2 (by decide) (by decide),
    by decide, by decide, by decide, by decide, by decide, by decide⟩

end RadosBenchPlot
